import Mathlib

/-!
Verification development for the discord-docker-status repository.

The repository runs two periodic loops communicating through one shared,
mutex-guarded `Store`:
  * `container_thread` (the Poller, src/main.rs 60-148) lists Docker
    containers, fetches each container's log tail, builds a fresh map and
    publishes it, together with the ids that disappeared, into the store;
  * `message_update` (the Reconciler, src/main.rs 155-306) drains the
    pending removals, deletes matching Discord channels, and then creates or
    updates one channel + message per container, formatting the log tail into
    an embed description.

This file is a shallow embedding of that code: Rust strings are `List Char`
(with the UTF-8 byte length made explicit where the code indexes by bytes),
raw log bytes are `List Nat`, fallible calls return `Except`, the Discord
HTTP client is a state machine driven by a success oracle, and each loop
iteration is a pure function.  Panics (e.g. a string slice at a non
character boundary) are modelled as `none` / an error value.
-/

namespace DockerStatus

/-! ## Association-list maps

`HashMap<String, V>` is embedded as an association list with
replace-in-place insertion; the key set of such a list is duplicate-free
whenever the initial list is. -/

def lookupKey {α : Type} : List (String × α) → String → Option α
  | [], _ => none
  | (k, v) :: rest, key => if k = key then some v else lookupKey rest key

def insertKey {α : Type} : List (String × α) → String → α → List (String × α)
  | [], key, v => [(key, v)]
  | (k, w) :: rest, key, v =>
    if k = key then (k, v) :: rest else (k, w) :: insertKey rest key v

def eraseKey {α : Type} : List (String × α) → String → List (String × α)
  | [], _ => []
  | (k, w) :: rest, key =>
    if k = key then eraseKey rest key else (k, w) :: eraseKey rest key

def containsKey {α : Type} (m : List (String × α)) (key : String) : Bool :=
  (lookupKey m key).isSome

/-! ## Formatter

From `message_update` (src/main.rs 214-250) and its twin
`embed_container` (src/discord.rs 14-71): each `LogOutput` chunk's bytes are
decoded as UTF-8 (invalid bytes replaced by an error string), ANSI-stripped,
the chunks concatenated, and the final 3900 *bytes* kept via
`&logs[(logs.len() as i64 - 3900).max(0) as usize..]`. -/

/-- The `bollard::container::LogOutput` variants; each carries raw bytes. -/
inductive LogOutput where
  | stdIn (message : List Nat)
  | stdOut (message : List Nat)
  | stdErr (message : List Nat)
  | console (message : List Nat)
  deriving DecidableEq

/-- The `match l { ... }` extracting the bytes of a chunk (src/main.rs 218-223). -/
def logMessage : LogOutput → List Nat
  | .stdErr m => m
  | .stdOut m => m
  | .stdIn m => m
  | .console m => m

/-- Number of bytes of a scalar value in UTF-8 (Rust `char::len_utf8`). -/
def charUtf8Len (c : Char) : Nat :=
  if c.toNat < 0x80 then 1
  else if c.toNat < 0x800 then 2
  else if c.toNat < 0x10000 then 3
  else 4

/-- Byte length of a Rust `String` holding these characters (`String::len`). -/
def utf8Len : List Char → Nat
  | [] => 0
  | c :: s => charUtf8Len c + utf8Len s

/-- State of the UTF-8 validation loop (Rust's `run_utf8_validation`,
reached through `String::from_utf8`): `pending` continuation bytes are still
expected for the sequence begun at byte index `start`, of which `got` have
been consumed; `acc` holds the scalar bits so far; the next byte must lie
in `lo..hi`. -/
structure Utf8State where
  pending : Nat
  acc : Nat
  lo : Nat
  hi : Nat
  start : Nat
  got : Nat
  deriving DecidableEq

/-- Byte-at-a-time UTF-8 validation/decoding as `String::from_utf8`
performs it: ASCII passes through, lead bytes open a multi-byte sequence
whose second byte has a lead-dependent admissible range (rejecting
overlongs, surrogates and values above U+10FFFF), and errors report the
sequence's start index together with the length of the rejected
subsequence (`none` when the input ends mid-sequence). -/
def utf8Go : List Nat → Nat → Utf8State → Except (Nat × Option Nat) (List Char)
  | [], _, st => if st.pending = 0 then .ok [] else .error (st.start, none)
  | b :: bs, i, st =>
    if st.pending = 0 then
      if b < 0x80 then
        match utf8Go bs (i + 1) ⟨0, 0, 0, 0, 0, 0⟩ with
        | .ok cs => .ok (Char.ofNat b :: cs)
        | .error e => .error e
      else if b < 0xC2 then .error (i, some 1)
      else if b ≤ 0xDF then utf8Go bs (i + 1) ⟨1, b - 0xC0, 0x80, 0xBF, i, 1⟩
      else if b ≤ 0xEF then
        utf8Go bs (i + 1) ⟨2, b - 0xE0, if b = 0xE0 then 0xA0 else 0x80,
          if b = 0xED then 0x9F else 0xBF, i, 1⟩
      else if b ≤ 0xF4 then
        utf8Go bs (i + 1) ⟨3, b - 0xF0, if b = 0xF0 then 0x90 else 0x80,
          if b = 0xF4 then 0x8F else 0xBF, i, 1⟩
      else .error (i, some 1)
    else
      if st.lo ≤ b ∧ b ≤ st.hi then
        if st.pending = 1 then
          match utf8Go bs (i + 1) ⟨0, 0, 0, 0, 0, 0⟩ with
          | .ok cs => .ok (Char.ofNat (st.acc * 64 + (b - 0x80)) :: cs)
          | .error e => .error e
        else utf8Go bs (i + 1)
          ⟨st.pending - 1, st.acc * 64 + (b - 0x80), 0x80, 0xBF, st.start,
            st.got + 1⟩
      else .error (st.start, some st.got)

def utf8Decode (bs : List Nat) : Except (Nat × Option Nat) (List Char) :=
  utf8Go bs 0 ⟨0, 0, 0, 0, 0, 0⟩

/-- The `Display` text of `FromUtf8Error` (std's utf8 error rendering). -/
def utf8ErrMsg : Nat × Option Nat → List Char
  | (i, some n) =>
    ("invalid utf-8 sequence of ").data ++ (Nat.repr n).data ++
      (" bytes from index ").data ++ (Nat.repr i).data
  | (i, none) =>
    ("incomplete utf-8 byte sequence from index ").data ++ (Nat.repr i).data

/-- `format!("-- Failed to parse bytes as utf8: {}", e)` (src/main.rs 230). -/
def utf8Placeholder (e : Nat × Option Nat) : List Char :=
  ("-- Failed to parse bytes as utf8: ").data ++ utf8ErrMsg e

/-- Modelled from the spec: the external sanitizer
(`strip_ansi_escapes::strip_str`, a third-party crate, src/main.rs 228) is
not part of this repository; per the spec, control/non-printable characters
and ANSI escape sequences are stripped.  Mode 0 = plain text, 1 = just saw
ESC, 2 = inside a CSI sequence (skipped up to its final byte). -/
def stripGo : Nat → List Char → List Char
  | _, [] => []
  | 0, c :: rest =>
    if c.toNat = 0x1b then stripGo 1 rest
    else if c.toNat < 0x20 ∨ c.toNat = 0x7f then stripGo 0 rest
    else c :: stripGo 0 rest
  | 1, c :: rest => if c.toNat = 0x5b then stripGo 2 rest else stripGo 0 rest
  | _ + 2, c :: rest =>
    if 0x40 ≤ c.toNat ∧ c.toNat ≤ 0x7e then stripGo 0 rest else stripGo 2 rest

def stripAnsi (s : List Char) : List Char := stripGo 0 s

/-- One chunk's contribution to the log text:
`strip_str(String::from_utf8(message).unwrap_or_else(placeholder))`
(src/main.rs 228-233). -/
def chunkText (bytes : List Nat) : List Char :=
  stripAnsi (match utf8Decode bytes with
    | .ok s => s
    | .error e => utf8Placeholder e)

/-- The sanitized concatenation of all chunks (`.collect::<String>()`,
src/main.rs 214-235). -/
def sanitizeLogs (chunks : List LogOutput) : List Char :=
  match chunks with
  | [] => []
  | l :: rest => chunkText (logMessage l) ++ sanitizeLogs rest

/-- Rust byte slice `&s[i..]` on a string: drops whole characters while
counting off `i` bytes; `none` when `i` is not a character boundary
(the slice panics there). -/
def byteSliceFrom : List Char → Nat → Option (List Char)
  | s, 0 => some s
  | [], _ + 1 => none
  | c :: s, i + 1 =>
    if charUtf8Len c ≤ i + 1 then byteSliceFrom s (i + 1 - charUtf8Len c)
    else none

/-- The log section of the embed description:
`&logs[(logs.len() as i64 - 3900).max(0) as usize..]` (src/main.rs 249);
`none` models the char-boundary panic of the slice. -/
def logsTail (s : List Char) : Option (List Char) :=
  byteSliceFrom s (utf8Len s - 3900)

/-- The whole formatter for one workload's log chunks. -/
def formatLogs (chunks : List LogOutput) : Option (List Char) :=
  logsTail (sanitizeLogs chunks)

/-! ## Shared state and the Poller (`container_thread`, src/main.rs 60-148) -/

/-- The target guild and category ids (src/main.rs 26-27). -/
def GUILD : Nat := 1209473653759016990

def CATEGORY : Nat := 1218191011348615240

/-- A container as stored by the Poller (src/main.rs 51-58). -/
structure Container where
  id : String
  name : String
  image : String
  command : String
  status : String
  logs : List LogOutput
  deriving DecidableEq

/-- One element of the Docker listing response: every field the code reads is
optional in bollard's `ContainerSummary`. -/
structure ListingEntry where
  id : Option String
  names : Option (List String)
  image : Option String
  command : Option String
  status : Option String
  deriving DecidableEq

/-- The all-or-nothing required-field extraction
`[id, names.first, image, command, status].into_iter().collect::<Option<Vec<_>>>()`
(src/main.rs 79-95, likewise src/docker.rs 59-72). -/
def requiredFields (c : ListingEntry) :
    Option (String × String × String × String × String) :=
  match c.id, c.names.bind List.head?, c.image, c.command, c.status with
  | some id, some name, some image, some cmd, some status =>
    some (id, name, image, cmd, status)
  | _, _, _, _, _ => none

/-- The shared snapshot (src/main.rs 150-153). -/
structure Store where
  containers : List (String × Container)
  to_remove : List String
  deriving DecidableEq

/-- Events observable in one loop iteration: lock handling, network calls to
Docker and Discord, and the Reconciler's handle-map changes. -/
inductive Event where
  | lockAcquire
  | lockRelease
  | listContainers
  | fetchLogs
  | listChannels
  | deleteChannel (cid : Nat)
  | createChannel (name : String) (cid : Nat)
  | createMessage (cid : Nat) (mid : Nat)
  | updateMessage (cid : Nat) (mid : Nat)
  | handleInserted (wid : String)
  | handleRemoved (wid : String)
  | msgCreated (wid : String)
  deriving DecidableEq

/-- `new_store.entry(id).or_insert(Container { .. logs: vec![] }).logs = logs`
(src/main.rs 120-130): a fresh id gets this entry's descriptive fields, an
already-present id keeps the earlier fields; the fetched logs overwrite
either way. -/
def entryOrSetLogs (m : List (String × Container)) (id : String)
    (c : Container) (logs : List LogOutput) : List (String × Container) :=
  match lookupKey m id with
  | some old => insertKey m id { old with logs := logs }
  | none => insertKey m id { c with logs := logs }

/-- Accumulator of the Poller's per-listing loop: the map under
construction, the number of log fetches made so far, and the number of
`warn!` lines for malformed entries; `events` records the network calls. -/
structure BuildAcc where
  map : List (String × Container)
  fetches : Nat
  warns : Nat
  events : List Event
  deriving DecidableEq

/-- The body of `for container in containers { ... }` (src/main.rs 78-131).
`lg k` is the response of the k-th `docker.logs` call of this cycle. -/
def buildGo (lg : Nat → List LogOutput) :
    List ListingEntry → BuildAcc → BuildAcc
  | [], acc => acc
  | e :: rest, acc =>
    match requiredFields e with
    | none => buildGo lg rest { acc with warns := acc.warns + 1 }
    | some (id, name, image, cmd, status) =>
      buildGo lg rest
        { acc with
          map := entryOrSetLogs acc.map id
            ⟨id, name, image, cmd, status, []⟩ (lg acc.fetches)
          fetches := acc.fetches + 1
          events := acc.events ++ [.fetchLogs] }

def buildStore (lg : Nat → List LogOutput) (l : List ListingEntry) : BuildAcc :=
  buildGo lg l ⟨[], 0, 0, []⟩

def buildStoreMap (lg : Nat → List LogOutput) (l : List ListingEntry) :
    List (String × Container) :=
  (buildStore lg l).map

/-- The publish block (src/main.rs 133-142): under the lock, `to_remove` is
set to the previous map's keys absent from the new map, and the container
map is replaced wholesale. -/
def pollerPublish (st : Store) (newStore : List (String × Container)) : Store :=
  { to_remove := (st.containers.map Prod.fst).filter
      (fun k => ¬ containsKey newStore k)
    containers := newStore }

/-- One full Poller iteration given the listing response, returning the new
store and the iteration's event trace: the listing call, one log fetch per
well-formed entry, then the lock held only around the in-memory publish. -/
def pollerIter (lg : Nat → List LogOutput) (l : List ListingEntry)
    (st : Store) : Store × List Event :=
  let b := buildStore lg l
  (pollerPublish st b.map,
    .listContainers :: b.events ++ [.lockAcquire, .lockRelease])

/-- One Poller iteration where the Docker listing call may fail
(`?` on `list_containers`, src/main.rs 68-76): the error propagates. -/
def containerIter (listRes : Except String (List ListingEntry))
    (lg : Nat → List LogOutput) (st : Store) : Except String Store :=
  match listRes with
  | .error e => .error e
  | .ok l => .ok (pollerIter lg l st).1

/-- The Poller's unbounded loop, run for `n` iterations starting at
iteration index `k`; `lo k` / `lg k` are the k-th iteration's Docker
responses.  An iteration error leaves the loop immediately (there is no
catch in `container_thread`). -/
def containerLoopGo (lo : Nat → Except String (List ListingEntry))
    (lg : Nat → Nat → List LogOutput) :
    Nat → Store → Nat → Except String Store
  | _, st, 0 => .ok st
  | k, st, n + 1 =>
    match containerIter (lo k) (lg k) st with
    | .error e => .error e
    | .ok st' => containerLoopGo lo lg (k + 1) st' n

/-! ## Reconciler (`message_update`, src/main.rs 155-306)

The Discord HTTP client is a state machine: `guild_channels` returns the
current channel list, `create_guild_channel` appends a channel with a fresh
id under `CATEGORY`, `delete_channel` removes one, and message calls return
fresh (or the given) message ids.  Every HTTP call consults a success
oracle at the current call counter; a failing call produces the source's
`context` string, and — as in the Rust code, where `?` aborts
`message_update` — the error carries the state at the abort point so that
the run can be inspected there.  The trace records lock usage, network
calls, and the handle-map changes. -/

/-- A guild channel as seen through twilight's model: `name` and
`parent_id` are optional (src/main.rs 176-177 reads both as `Option`). -/
structure GuildChannel where
  id : Nat
  name : Option String
  parentId : Option Nat
  deriving DecidableEq

/-- The Discord side: existing channels plus fresh-id counters. -/
structure Sink where
  channels : List GuildChannel
  nextChanId : Nat
  nextMsgId : Nat
  deriving DecidableEq

/-- The Reconciler's running state: the private handle map
`channels : HashMap<String, (Id<ChannelMarker>, Option<Id<MessageMarker>>)>`
(src/main.rs 160), the Discord state, the HTTP call counter consumed by the
success oracle, and the event trace. -/
structure RState where
  handles : List (String × (Nat × Option Nat))
  sink : Sink
  calls : Nat
  trace : List Event
  deriving DecidableEq

def addEvt (s : RState) (e : Event) : RState :=
  { s with trace := s.trace ++ [e] }

/-- One HTTP call: consult the oracle, record the event on success, and
abort with the source's `context` string (carrying the abort state) on
failure. -/
def netCall (oracle : Nat → Bool) (s : RState) (e : Event) (ctx : String) :
    Except (String × RState) RState :=
  if oracle s.calls then
    .ok { s with calls := s.calls + 1, trace := s.trace ++ [e] }
  else .error (ctx, s)

/-- The inner loop of the removal pass (src/main.rs 168-186): for each
channel of the filtered listing, delete it and drop the handle keyed by the
drained entry. -/
def deleteLoop (oracle : Nat → Bool) (name : String) :
    List GuildChannel → RState → Except (String × RState) RState
  | [], s => .ok s
  | c :: cs, s =>
    match netCall oracle s (.deleteChannel c.id) ("Failed to delete channel") with
    | .error e => .error e
    | .ok s1 =>
      let s2 := { s1 with
        sink := { s1.sink with
          channels := s1.sink.channels.filter (fun ch => ch.id ≠ c.id) }
        handles := eraseKey s1.handles name
        trace := s1.trace ++ [.handleRemoved name] }
      deleteLoop oracle name cs s2

/-- Processing of one drained removal entry (src/main.rs 167-187): list the
guild channels, keep those under `CATEGORY` whose *name equals the drained
container id*, and delete each. -/
def processRemoval (oracle : Nat → Bool) (name : String) (s : RState) :
    Except (String × RState) RState :=
  match netCall oracle s .listChannels ("Failed to get guild channels") with
  | .error e => .error e
  | .ok s1 =>
    deleteLoop oracle name
      (s1.sink.channels.filter
        (fun c => c.parentId = some CATEGORY ∧ c.name = some name)) s1

def processRemovals (oracle : Nat → Bool) :
    List String → RState → Except (String × RState) RState
  | [], s => .ok s
  | n :: ns, s =>
    match processRemoval oracle n s with
    | .error e => .error e
    | .ok s1 => processRemovals oracle ns s1

/-- Building the embed and sending the message (src/main.rs 214-299).  The
embed description slices the sanitized log text by bytes; a slice at a non
character boundary is a panic, which also tears the task down (modelled as
an error).  With a message handle present the message is updated in place
(Discord returns the same message id); otherwise an initial message is
created.  Either way the handle map is rewritten with the channel and the
resulting message id (src/main.rs 299). -/
def upsertSend (oracle : Nat → Bool) (c : Container) (ch : Nat)
    (msg : Option Nat) (s : RState) : Except (String × RState) RState :=
  match formatLogs c.logs with
  | none => .error ("panicked: byte index is not a char boundary", s)
  | some _ =>
    match msg with
    | some m =>
      match netCall oracle s (.updateMessage ch m) ("Failed to send message") with
      | .error e => .error e
      | .ok s1 => .ok { s1 with handles := insertKey s1.handles c.id (ch, some m) }
    | none =>
      let mid := s.sink.nextMsgId
      match netCall oracle s (.createMessage ch mid) ("Failed to send message") with
      | .error e => .error e
      | .ok s1 =>
        .ok { s1 with
          sink := { s1.sink with nextMsgId := mid + 1 }
          handles := insertKey s1.handles c.id (ch, some mid)
          trace := s1.trace ++ [.msgCreated c.id] }

/-- The per-container body of the update pass (src/main.rs 189-212): an id
with no handle first gets a fresh channel under `CATEGORY` (named after the
container) and a handle with no message; then the message is sent. -/
def upsertContainer (oracle : Nat → Bool) (c : Container) (s : RState) :
    Except (String × RState) RState :=
  match lookupKey s.handles c.id with
  | some (ch, msg) => upsertSend oracle c ch msg s
  | none =>
    let chId := s.sink.nextChanId
    match netCall oracle s (.createChannel c.name chId) ("Failed to create channel") with
    | .error e => .error e
    | .ok s1 =>
      let s2 := { s1 with
        sink := { s1.sink with
          channels := s1.sink.channels ++ [⟨chId, some c.name, some CATEGORY⟩]
          nextChanId := chId + 1 }
        handles := insertKey s1.handles c.id (chId, none)
        trace := s1.trace ++ [.handleInserted c.id] }
      upsertSend oracle c chId none s2

def upsertLoop (oracle : Nat → Bool) :
    List Container → RState → Except (String × RState) RState
  | [], s => .ok s
  | c :: cs, s =>
    match upsertContainer oracle c s with
    | .error e => .error e
    | .ok s1 => upsertLoop oracle cs s1

/-- One Reconciler cycle over a published store value.  Per Rust temporary
lifetimes, the guard of `store.lock().await` in each `for` header lives for
the whole loop, so the lock spans both passes' network calls; it is
reacquired between the removal pass and the update pass.  (On an abort the
process dies; the release events of the unwinding are not recorded.) -/
def reconCycle (oracle : Nat → Bool) (st : Store) (s : RState) :
    Except (String × RState) RState :=
  match processRemovals oracle st.to_remove (addEvt s .lockAcquire) with
  | .error e => .error e
  | .ok s1 =>
    match upsertLoop oracle (st.containers.map Prod.snd)
        (addEvt (addEvt s1 .lockRelease) .lockAcquire) with
    | .error e => .error e
    | .ok s2 => .ok (addEvt s2 .lockRelease)

/-- The Reconciler's unbounded loop run for `n` cycles; `stores k` is the
store contents the k-th cycle observes.  As in the source, an error leaves
the loop immediately. -/
def messageLoopGo (oracle : Nat → Bool) (stores : Nat → Store) :
    Nat → RState → Nat → Except String RState
  | _, s, 0 => .ok s
  | k, s, n + 1 =>
    match reconCycle oracle (stores k) s with
    | .error (e, _) => .error e
    | .ok s1 => messageLoopGo oracle stores (k + 1) s1 n

/-- The initial Reconciler state: empty handle map, fresh client. -/
def initRState (sink : Sink) : RState := ⟨[], sink, 0, []⟩

/-- A sequence of Reconciler cycles from given state, stopping at the first
error but keeping the state at the abort point. -/
def runCycles (oracle : Nat → Bool) : List Store → RState → RState
  | [], s => s
  | st :: rest, s =>
    match reconCycle oracle st s with
    | .ok s1 => runCycles oracle rest s1
    | .error (_, s1) => s1

/-- `main`'s `try_join!` + `error!` (src/main.rs 46-48): if either loop
returns an error the process logs it and exits; `some e` = the process
terminated logging `e`. -/
def mainRun (pollerRes : Except String Store)
    (reconRes : Except String RState) : Option String :=
  match pollerRes, reconRes with
  | .error e, _ => some e
  | _, .error e => some e
  | _, _ => none

/-! ## Trace predicates -/

def isNet : Event → Bool
  | .listContainers | .fetchLogs | .listChannels => true
  | .deleteChannel _ | .createChannel _ _ => true
  | .createMessage _ _ | .updateMessage _ _ => true
  | _ => false

def isLock : Event → Bool
  | .lockAcquire | .lockRelease => true
  | _ => false

def isDelete : Event → Bool
  | .deleteChannel _ => true
  | _ => false

def isCreateOrUpdate : Event → Bool
  | .createChannel _ _ | .createMessage _ _ | .updateMessage _ _ => true
  | _ => false

/-- Is some network event executed while the lock is held (depth > 0)? -/
def anyNetLocked : Nat → List Event → Bool
  | _, [] => false
  | d, .lockAcquire :: es => anyNetLocked (d + 1) es
  | d, .lockRelease :: es => anyNetLocked (d - 1) es
  | d, e :: es => (isNet e && decide (0 < d)) || anyNetLocked d es

/-- Is some network event executed with the lock released (depth 0)? -/
def anyNetUnlocked : Nat → List Event → Bool
  | _, [] => false
  | d, .lockAcquire :: es => anyNetUnlocked (d + 1) es
  | d, .lockRelease :: es => anyNetUnlocked (d - 1) es
  | d, e :: es => (isNet e && decide (d = 0)) || anyNetUnlocked d es

/-- Does a channel deletion occur after some create/update call?  `seen`
carries whether a create/update has already been passed. -/
def delAfterCreate : Bool → List Event → Bool
  | _, [] => false
  | seen, e :: es =>
    if isDelete e && seen then true
    else delAfterCreate (seen || isCreateOrUpdate e) es

/-- The state at the end of a possibly-aborted Reconciler run. -/
def resState (r : Except (String × RState) RState) : RState :=
  match r with
  | .ok s => s
  | .error (_, s) => s

/-- The trace of a possibly-aborted Reconciler run. -/
def resTrace (r : Except (String × RState) RState) : List Event :=
  (resState r).trace

/-- The per-workload message-creation state derivable from a trace: a fresh
handle maps to `false`, a successful initial message create sets `true`,
dropping the handle erases the entry. -/
def msgMapStep (m : List (String × Bool)) : Event → List (String × Bool)
  | .handleInserted id => insertKey m id false
  | .msgCreated id => insertKey m id true
  | .handleRemoved id => eraseKey m id
  | _ => m

def msgMap (tr : List Event) : List (String × Bool) :=
  tr.foldl msgMapStep []

def msgLookup (tr : List Event) (id : String) : Option Bool :=
  lookupKey (msgMap tr) id

/-- The publish step as the spec words it (spec §4.1 (d)-(e)): the computed
removals are *unioned* into the snapshot's existing `pendingRemovals`, so
removals not yet drained by the Reconciler are preserved.  Stated here only
for comparison with `pollerPublish`, the step the code performs. -/
def pollerPublishSpec (st : Store) (newStore : List (String × Container)) :
    Store :=
  { to_remove := st.to_remove ++
      ((st.containers.map Prod.fst).filter
        (fun k => ¬ containsKey newStore k)).filter
        (fun k => ¬ k ∈ st.to_remove)
    containers := newStore }

/-! ## Helper notions used by the statements below -/

/-- The required-field tuples of the well-formed listing entries, in
listing order. -/
def wfFields (l : List ListingEntry) :
    List (String × String × String × String × String) :=
  l.filterMap requiredFields

/-- The required-field tuple of the first well-formed entry with id `x`. -/
def firstFields (l : List ListingEntry) (x : String) :
    Option (String × String × String × String × String) :=
  (wfFields l).find? (fun f => f.1 = x)

/-- The log-fetch counter index of the *last* well-formed entry with id `x`,
when the fetch counter starts at `k` (each well-formed entry consumes one
fetch). -/
def lastFetchIdx : List ListingEntry → Nat → String → Option Nat
  | [], _, _ => none
  | e :: es, k, x =>
    match requiredFields e with
    | none => lastFetchIdx es k x
    | some f =>
      match lastFetchIdx es (k + 1) x with
      | some j => some j
      | none => if f.1 = x then some k else none

/-- The container built from a required-field tuple and fetched logs. -/
def mkContainer (f : String × String × String × String × String)
    (logs : List LogOutput) : Container :=
  ⟨f.1, f.2.1, f.2.2.1, f.2.2.2.1, f.2.2.2.2, logs⟩

/-- The workload-id → message-present projection of the handle map. -/
def projFlags (h : List (String × (Nat × Option Nat))) : List (String × Bool) :=
  h.map (fun p => (p.1, p.2.2.isSome))

/-- The Reconciler-state invariant behind claim C7: the handle map has
duplicate-free keys, and a handle's message field is `some` exactly when
the trace records a successful initial message create since the handle's
creation. -/
def rstateInv (s : RState) : Prop :=
  (s.handles.map Prod.fst).Nodup ∧ projFlags s.handles = msgMap s.trace

/-! ## Association-list lemmas -/

theorem lookupKey_insertKey {α : Type} (m : List (String × α)) (k x : String)
    (v : α) :
    lookupKey (insertKey m k v) x = if k = x then some v else lookupKey m x := by
  induction m with
  | nil => simp [insertKey, lookupKey]
  | cons p rest ih =>
    obtain ⟨k', w⟩ := p
    simp only [insertKey]
    by_cases h : k' = k
    · subst h
      simp only [if_pos rfl, lookupKey]
      by_cases h2 : k' = x <;> simp [h2]
    · simp only [if_neg h, lookupKey, ih]
      by_cases h2 : k' = x
      · subst h2
        have hkx : ¬ k = k' := fun hh => h hh.symm
        simp [hkx]
      · simp [h2]

theorem containsKey_iff_mem_keys {α : Type} (m : List (String × α))
    (k : String) : containsKey m k = true ↔ k ∈ m.map Prod.fst := by
  induction m with
  | nil => simp [containsKey, lookupKey]
  | cons p rest ih =>
    obtain ⟨k', w⟩ := p
    simp only [containsKey] at ih
    by_cases h : k' = k
    · simp [containsKey, lookupKey, h]
    · simp only [containsKey, lookupKey, if_neg h, List.map_cons, List.mem_cons]
      constructor
      · intro hh
        exact Or.inr (ih.mp hh)
      · rintro (hh | hh)
        · exact absurd hh.symm h
        · exact ih.mpr hh

theorem keys_insertKey {α : Type} (m : List (String × α)) (k : String) (v : α) :
    (insertKey m k v).map Prod.fst =
      if containsKey m k then m.map Prod.fst else m.map Prod.fst ++ [k] := by
  induction m with
  | nil => simp [insertKey, containsKey, lookupKey]
  | cons p rest ih =>
    obtain ⟨k', w⟩ := p
    by_cases h : k' = k
    · subst h
      simp [insertKey, containsKey, lookupKey]
    · simp only [insertKey, if_neg h, List.map_cons, ih, containsKey, lookupKey,
        if_neg h]
      by_cases h2 : (lookupKey rest k).isSome = true <;> simp [h2]

theorem nodup_keys_insertKey {α : Type} (m : List (String × α)) (k : String)
    (v : α) (h : (m.map Prod.fst).Nodup) :
    ((insertKey m k v).map Prod.fst).Nodup := by
  rw [keys_insertKey]
  split
  · exact h
  · rename_i hc
    refine List.Nodup.append h (List.nodup_singleton k) ?_
    intro x hx hx1
    rcases List.mem_singleton.mp hx1 with rfl
    exact hc ((containsKey_iff_mem_keys m x).mpr hx)

theorem keys_eraseKey_sublist {α : Type} (m : List (String × α)) (k : String) :
    ((eraseKey m k).map Prod.fst).Sublist (m.map Prod.fst) := by
  induction m with
  | nil => simp [eraseKey]
  | cons p rest ih =>
    obtain ⟨k', w⟩ := p
    by_cases h : k' = k
    · simp only [eraseKey, if_pos h, List.map_cons]
      exact ih.trans (List.sublist_cons_self _ _)
    · simpa only [eraseKey, if_neg h, List.map_cons] using ih.cons₂ _

theorem nodup_keys_eraseKey {α : Type} (m : List (String × α)) (k : String)
    (h : (m.map Prod.fst).Nodup) : ((eraseKey m k).map Prod.fst).Nodup :=
  (keys_eraseKey_sublist m k).nodup h

theorem map_insertKey {α β : Type} (m : List (String × α)) (k : String) (v : α)
    (g : α → β) :
    (insertKey m k v).map (fun p => (p.1, g p.2)) =
      insertKey (m.map (fun p => (p.1, g p.2))) k (g v) := by
  induction m with
  | nil => simp [insertKey]
  | cons p rest ih =>
    obtain ⟨k', w⟩ := p
    by_cases h : k' = k
    · simp [insertKey, h]
    · simp [insertKey, h, ih]

theorem map_eraseKey {α β : Type} (m : List (String × α)) (k : String)
    (g : α → β) :
    (eraseKey m k).map (fun p => (p.1, g p.2)) =
      eraseKey (m.map (fun p => (p.1, g p.2))) k := by
  induction m with
  | nil => simp [eraseKey]
  | cons p rest ih =>
    obtain ⟨k', w⟩ := p
    by_cases h : k' = k
    · simp [eraseKey, h, ih]
    · simp [eraseKey, h, ih]

theorem lookupKey_map {α β : Type} (m : List (String × α)) (k : String)
    (g : α → β) :
    lookupKey (m.map (fun p => (p.1, g p.2))) k = (lookupKey m k).map g := by
  induction m with
  | nil => simp [lookupKey]
  | cons p rest ih =>
    obtain ⟨k', w⟩ := p
    by_cases h : k' = k
    · simp [lookupKey, h]
    · simp [lookupKey, h, ih]

theorem insertKey_lookup_self {α : Type} (m : List (String × α)) (k : String)
    (v : α) (h : lookupKey m k = some v) : insertKey m k v = m := by
  induction m with
  | nil => simp [lookupKey] at h
  | cons p rest ih =>
    obtain ⟨k', w⟩ := p
    by_cases hq : k' = k
    · subst hq
      simp [lookupKey] at h
      subst h
      simp [insertKey]
    · simp only [lookupKey, if_neg hq] at h
      simp [insertKey, hq, ih h]

/-! ## Claim C1: error propagation out of the loops -/

/-- Claim C1 states that no error raised inside either periodic loop escapes
to terminate the process: the loop would catch it, log it and run the next
iteration.  This is false: when the Docker listing call fails at the very
first iteration, the Poller loop returns the error instead of running its
remaining iterations, and `main`'s `try_join!` then logs it and the process
exits. -/
theorem c1_counterexample :
    containerLoopGo (fun _ => .error ("Failed to list containers"))
      (fun _ _ => []) 0 ⟨[], []⟩ 3 = .error ("Failed to list containers") ∧
    mainRun
      (containerLoopGo (fun _ => .error ("Failed to list containers"))
        (fun _ _ => []) 0 ⟨[], []⟩ 3)
      (.ok (initRState ⟨[], 0, 0⟩)) = some ("Failed to list containers") := by
  constructor <;> rfl

/-- Claim C1 amended: an error in an iteration of either loop is *not*
caught at the iteration boundary; it propagates out of the loop function
immediately (no further iteration runs), and via `try_join!` the process
logs it and exits. -/
theorem c1_amended :
    (∀ (lo : Nat → Except String (List ListingEntry))
       (lg : Nat → Nat → List LogOutput) (k : Nat) (st : Store) (n : Nat)
       (e : String), lo k = .error e →
         containerLoopGo lo lg k st (n + 1) = .error e) ∧
    (∀ (oracle : Nat → Bool) (stores : Nat → Store) (k : Nat) (s : RState)
       (n : Nat) (e : String) (s' : RState),
       reconCycle oracle (stores k) s = .error (e, s') →
         messageLoopGo oracle stores k s (n + 1) = .error e) := by
  constructor
  · intro lo lg k st n e h
    simp [containerLoopGo, containerIter, h]
  · intro oracle stores k s n e s' h
    simp [messageLoopGo, h]

/-- Witness for `c1_amended` at concrete failing calls. -/
theorem c1_amended_witness :
    containerLoopGo (fun _ => .error ("Failed to list containers"))
      (fun _ _ => []) 0 ⟨[], []⟩ 1 = .error ("Failed to list containers") ∧
    messageLoopGo (fun _ => false) (fun _ => ⟨[], ["x"]⟩) 0
      (initRState ⟨[], 0, 0⟩) 1 = .error ("Failed to get guild channels") :=
  ⟨c1_amended.1 _ _ 0 ⟨[], []⟩ 0 _ rfl,
   c1_amended.2 _ _ 0 _ 0 _ _ rfl⟩

/-! ## Claim C5: the publish step replaces, not unions, the removals -/

/-- Claim C5 states that the Poller unions the computed removals into the
snapshot's existing `pendingRemovals`.  This is false: an undrained removal
entry ("x") is discarded by the publish step, which plainly assigns the
newly computed list. -/
theorem c5_counterexample :
    (pollerPublish ⟨[], ["x"]⟩ []).to_remove = [] ∧
    pollerPublish ⟨[], ["x"]⟩ [] ≠ pollerPublishSpec ⟨[], ["x"]⟩ [] := by
  constructor
  · rfl
  · decide

/-- Claim C5 amended: in the same locked update, the Poller *replaces*
`to_remove` by exactly (previous map's ids) minus (new map's ids) — existing
undrained entries are discarded — and replaces the workload map wholesale. -/
theorem c5_amended :
    ∀ (st : Store) (nm : List (String × Container)) (k : String),
      (k ∈ (pollerPublish st nm).to_remove ↔
        k ∈ st.containers.map Prod.fst ∧ containsKey nm k = false) ∧
      (pollerPublish st nm).containers = nm := by
  intro st nm k
  constructor
  · simp [pollerPublish, List.mem_filter]
  · rfl

/-- Witness for `c5_amended`: a container present before and absent from
the new map lands in `to_remove`. -/
theorem c5_amended_witness :
    ("a" ∈ (pollerPublish ⟨[("a", ⟨"a", "n", "i", "c", "s", []⟩)], []⟩
        []).to_remove ↔
      "a" ∈ ([("a", (⟨"a", "n", "i", "c", "s", []⟩ : Container))]).map
          Prod.fst ∧
        containsKey ([] : List (String × Container)) "a" = false) ∧
    (pollerPublish ⟨[("a", ⟨"a", "n", "i", "c", "s", []⟩)], []⟩
      []).containers = [] :=
  c5_amended _ _ "a"

/-! ## Formatter lemmas -/

theorem utf8Len_cons (c : Char) (s : List Char) :
    utf8Len (c :: s) = charUtf8Len c + utf8Len s := rfl

theorem utf8Len_replicate (n : Nat) (c : Char) :
    utf8Len (List.replicate n c) = n * charUtf8Len c := by
  induction n with
  | zero => simp [utf8Len]
  | succ m ih =>
    rw [List.replicate_succ, utf8Len_cons, ih, Nat.succ_mul]
    ring

theorem utf8Len_eq_length (s : List Char) (h : ∀ c ∈ s, charUtf8Len c = 1) :
    utf8Len s = s.length := by
  induction s with
  | nil => simp [utf8Len]
  | cons c rest ih =>
    simp only [utf8Len, List.length_cons, h c (by simp)]
    rw [ih (fun x hx => h x (by simp [hx]))]
    omega

theorem byteSliceFrom_zero (s : List Char) : byteSliceFrom s 0 = some s := by
  simp [byteSliceFrom]

theorem byteSliceFrom_cons_le (c : Char) (s : List Char) (i : Nat)
    (h : charUtf8Len c ≤ i + 1) :
    byteSliceFrom (c :: s) (i + 1) = byteSliceFrom s (i + 1 - charUtf8Len c) := by
  simp [byteSliceFrom, h]

theorem byteSliceFrom_cons_gt (c : Char) (s : List Char) (i : Nat)
    (h : ¬ charUtf8Len c ≤ i + 1) : byteSliceFrom (c :: s) (i + 1) = none := by
  simp [byteSliceFrom, h]

theorem byteSliceFrom_spec (s : List Char) :
    ∀ (i : Nat) (t : List Char), byteSliceFrom s i = some t →
      utf8Len t = utf8Len s - i ∧ t <:+ s := by
  induction s with
  | nil =>
    intro i t h
    cases i with
    | zero =>
      rw [byteSliceFrom_zero] at h
      cases h
      simp
    | succ j => simp [byteSliceFrom] at h
  | cons c rest ih =>
    intro i t h
    cases i with
    | zero =>
      rw [byteSliceFrom_zero] at h
      cases h
      simp
    | succ j =>
      by_cases hle : charUtf8Len c ≤ j + 1
      · rw [byteSliceFrom_cons_le c rest j hle] at h
        obtain ⟨h1, h2⟩ := ih _ _ h
        refine ⟨?_, h2.trans (List.suffix_cons c rest)⟩
        rw [h1, utf8Len]
        omega
      · rw [byteSliceFrom_cons_gt c rest j hle] at h
        cases h

/-! ## Claim C2: the truncation works on bytes, not characters -/

/-- Claim C2 states that the log section has exactly `min(L, N)`
*characters*, `L` the length of the sanitized text.  This is false: the
slice index is computed in bytes.  On a sanitized text of 3900 characters
(two two-byte characters followed by 3898 ASCII ones, 3902 bytes) the code
returns 3899 characters although `min(L, N) = 3900`. -/
theorem c2_counterexample :
    (logsTail ('é' :: 'é' :: List.replicate 3898 'a')).map List.length =
      some 3899 ∧
    ('é' :: 'é' :: List.replicate 3898 'a').length = 3900 := by
  have ha : charUtf8Len 'a' = 1 := by decide
  have he : charUtf8Len 'é' = 2 := by decide
  have hrep : utf8Len (List.replicate 3898 'a') = 3898 := by
    rw [utf8Len_replicate, ha, mul_one]
  have hlen : utf8Len ('é' :: 'é' :: List.replicate 3898 'a') = 3902 := by
    rw [utf8Len_cons, utf8Len_cons, he, hrep]
  have hcut : utf8Len ('é' :: 'é' :: List.replicate 3898 'a') - 3900 = 1 + 1 := by
    omega
  have hstep := byteSliceFrom_cons_le 'é' ('é' :: List.replicate 3898 'a') 1
    (by rw [he])
  rw [he] at hstep
  constructor
  · rw [logsTail, hcut, hstep]
    rw [show (1 + 1 - 2 : Nat) = 0 from rfl, byteSliceFrom_zero,
      Option.map_some', List.length_cons, List.length_replicate]
  · rw [List.length_cons, List.length_cons, List.length_replicate]

/-- Claim C2 amended: the log section is the final `min(Lb, 3900)` *bytes*
of the sanitized text (`Lb` its byte length), a suffix of it — bytes, not
characters, with the earliest characters discarded first; the character
count equals `min(L, 3900)` only when every character is single-byte (and
the slice can panic otherwise, see C3). -/
theorem c2_amended :
    ∀ (s t : List Char), logsTail s = some t →
      (utf8Len t = min (utf8Len s) 3900 ∧ t <:+ s) ∧
      ((∀ c ∈ s, charUtf8Len c = 1) → t.length = min s.length 3900) := by
  intro s t h
  obtain ⟨h1, h2⟩ := byteSliceFrom_spec s _ t h
  refine ⟨⟨by rw [h1]; omega, h2⟩, ?_⟩
  intro hascii
  have hs : utf8Len s = s.length := utf8Len_eq_length s hascii
  have ht : utf8Len t = t.length :=
    utf8Len_eq_length t (fun c hc => hascii c (h2.subset hc))
  omega

/-- Witness for `c2_amended` on a short all-ASCII text. -/
theorem c2_amended_witness :
    (utf8Len ['a'] = min (utf8Len ['a']) 3900 ∧ ['a'] <:+ ['a']) ∧
    ((∀ c ∈ ['a'], charUtf8Len c = 1) →
      List.length ['a'] = min (List.length ['a']) 3900) :=
  c2_amended ['a'] ['a'] (by decide)

/-! ## Claim C3: invalid UTF-8 is replaced, but format can still panic -/

theorem utf8St0_pending : (⟨0, 0, 0, 0, 0, 0⟩ : Utf8State).pending = 0 := rfl

/-- One ASCII byte passes through the validation loop. -/
theorem utf8Go_ascii_cons (b : Nat) (hb : b < 0x80) (bs : List Nat) (i : Nat) :
    utf8Go (b :: bs) i ⟨0, 0, 0, 0, 0, 0⟩ =
      match utf8Go bs (i + 1) ⟨0, 0, 0, 0, 0, 0⟩ with
      | .ok cs => .ok (Char.ofNat b :: cs)
      | .error e => .error e := by
  rw [utf8Go]
  simp [utf8St0_pending, hb]

/-- A two-byte sequence with a valid continuation byte. -/
theorem utf8Go_twobyte_cons (b b1 : Nat) (hb : 0xC2 ≤ b ∧ b ≤ 0xDF)
    (hb1 : 0x80 ≤ b1 ∧ b1 ≤ 0xBF) (bs : List Nat) (i : Nat) :
    utf8Go (b :: b1 :: bs) i ⟨0, 0, 0, 0, 0, 0⟩ =
      match utf8Go bs (i + 2) ⟨0, 0, 0, 0, 0, 0⟩ with
      | .ok cs => .ok (Char.ofNat ((b - 0xC0) * 64 + (b1 - 0x80)) :: cs)
      | .error e => .error e := by
  obtain ⟨hb2, hb3⟩ := hb
  have h1 : ¬ b < 0x80 := by omega
  have h2 : ¬ b < 0xC2 := by omega
  rw [utf8Go]
  simp only [utf8St0_pending, if_pos rfl, if_neg h1, if_neg h2, if_pos hb3]
  rw [utf8Go]
  simp only [if_neg (by norm_num : ¬ (1 : Nat) = 0), if_pos hb1, if_pos rfl]
  have : i + 1 + 1 = i + 2 := by omega
  rw [this]
  simp

theorem utf8Go_replicate_a (n : Nat) :
    ∀ i, utf8Go (List.replicate n 0x61) i ⟨0, 0, 0, 0, 0, 0⟩ =
      .ok (List.replicate n 'a') := by
  induction n with
  | zero => intro i; rfl
  | succ m ih =>
    intro i
    have ha : Char.ofNat 0x61 = 'a' := by decide
    rw [List.replicate_succ, List.replicate_succ,
      utf8Go_ascii_cons 0x61 (by norm_num), ih, ha]

theorem stripGo_printable (s : List Char)
    (h : ∀ c ∈ s, 0x20 ≤ c.toNat ∧ c.toNat ≠ 0x7f) : stripGo 0 s = s := by
  induction s with
  | nil => simp [stripGo]
  | cons c rest ih =>
    obtain ⟨h1, h2⟩ := h c (by simp)
    have hesc : ¬ c.toNat = 0x1b := by omega
    have hctl : ¬ (c.toNat < 0x20 ∨ c.toNat = 0x7f) := by omega
    simp only [stripGo, if_neg hesc, if_neg hctl]
    rw [ih (fun x hx => h x (by simp [hx]))]

/-- Claim C3 states that `format` never raises for any input log chunks.
This is false: on a single chunk of *valid* UTF-8 whose sanitized text is
3902 bytes with a two-byte character spanning byte offsets 1..3, the
truncation index (2) is not a character boundary and the byte slice
panics. -/
theorem c3_counterexample :
    formatLogs [.stdOut ([0x61, 0xC3, 0xA9] ++ List.replicate 3899 0x61)] =
      none := by
  have ha : charUtf8Len 'a' = 1 := by decide
  have he : charUtf8Len 'é' = 2 := by decide
  have hchar : Char.ofNat ((0xC3 - 0xC0) * 64 + (0xA9 - 0x80)) = 'é' := by decide
  have hA : Char.ofNat 0x61 = 'a' := by decide
  have hdec : utf8Decode ([0x61, 0xC3, 0xA9] ++ List.replicate 3899 0x61) =
      .ok ('a' :: 'é' :: List.replicate 3899 'a') := by
    rw [utf8Decode, List.cons_append, List.cons_append, List.cons_append,
      List.nil_append, utf8Go_ascii_cons 0x61 (by norm_num),
      utf8Go_twobyte_cons 0xC3 0xA9 (by norm_num) (by norm_num),
      utf8Go_replicate_a 3899 (0 + 1 + 2), hchar, hA]
  have hstrip : stripGo 0 ('a' :: 'é' :: List.replicate 3899 'a') =
      'a' :: 'é' :: List.replicate 3899 'a' := by
    refine stripGo_printable _ ?_
    intro c hc
    rcases List.mem_cons.mp hc with rfl | hc
    · decide
    rcases List.mem_cons.mp hc with rfl | hc
    · decide
    · rcases (List.mem_replicate.mp hc).2 with rfl
      decide
  have hsan : sanitizeLogs
      [.stdOut ([0x61, 0xC3, 0xA9] ++ List.replicate 3899 0x61)] =
      'a' :: 'é' :: List.replicate 3899 'a' := by
    rw [sanitizeLogs, sanitizeLogs, List.append_nil, logMessage, chunkText,
      hdec]
    rw [stripAnsi, hstrip]
  have hrepl : utf8Len (List.replicate 3899 'a') = 3899 := by
    rw [utf8Len_replicate, ha, mul_one]
  have hlen : utf8Len ('a' :: 'é' :: List.replicate 3899 'a') = 3902 := by
    rw [utf8Len_cons, utf8Len_cons, ha, he, hrepl]
  have hcut : utf8Len ('a' :: 'é' :: List.replicate 3899 'a') - 3900 = 1 + 1 := by
    omega
  have hstep := byteSliceFrom_cons_le 'a' ('é' :: List.replicate 3899 'a') 1
    (by rw [ha]; omega)
  rw [ha] at hstep
  have hstop := byteSliceFrom_cons_gt 'é' (List.replicate 3899 'a') 0
    (by rw [he]; omega)
  rw [formatLogs, hsan, logsTail, hcut, hstep]
  rw [show (1 + 1 - 1 : Nat) = 0 + 1 from rfl, hstop]

/-- Claim C3 amended: formatting never fails on account of invalid UTF-8 —
a chunk that fails to decode contributes the (sanitized) visible error
placeholder instead, and the whole format succeeds whenever the sanitized
text fits the 3900-byte limit; the only failure mode is the byte-slice
panic exhibited in the counterexample. -/
theorem c3_amended :
    (∀ (chunks : List LogOutput), utf8Len (sanitizeLogs chunks) ≤ 3900 →
      formatLogs chunks = some (sanitizeLogs chunks)) ∧
    (∀ (bytes : List Nat) (e : Nat × Option Nat), utf8Decode bytes = .error e →
      chunkText bytes = stripAnsi (utf8Placeholder e)) := by
  constructor
  · intro chunks h
    have hcut : utf8Len (sanitizeLogs chunks) - 3900 = 0 := by omega
    rw [formatLogs, logsTail, hcut, byteSliceFrom_zero]
  · intro bytes e h
    simp [chunkText, h]

/-- Witness for `c3_amended` on a chunk whose single byte is invalid UTF-8. -/
theorem c3_amended_witness :
    formatLogs [.stdOut [0xFF]] = some (sanitizeLogs [.stdOut [0xFF]]) ∧
    chunkText [0xFF] = stripAnsi (utf8Placeholder (0, some 1)) :=
  ⟨c3_amended.1 _ (by decide), c3_amended.2 _ _ (by rfl)⟩

/-! ## Poller build lemmas (claims C9, C10) -/

theorem lookupKey_entryOrSetLogs_ne (m : List (String × Container))
    (id x : String) (c : Container) (logs : List LogOutput) (h : ¬ id = x) :
    lookupKey (entryOrSetLogs m id c logs) x = lookupKey m x := by
  rw [entryOrSetLogs]
  cases lookupKey m id <;> simp [lookupKey_insertKey, h]

theorem lookupKey_entryOrSetLogs_self (m : List (String × Container))
    (id : String) (c : Container) (logs : List LogOutput) :
    lookupKey (entryOrSetLogs m id c logs) id =
      some (match lookupKey m id with
        | some old => { old with logs := logs }
        | none => { c with logs := logs }) := by
  rw [entryOrSetLogs]
  cases lookupKey m id <;> simp [lookupKey_insertKey]

theorem containsKey_entryOrSetLogs (m : List (String × Container))
    (id x : String) (c : Container) (logs : List LogOutput) :
    containsKey (entryOrSetLogs m id c logs) x = true →
      id = x ∨ containsKey m x = true := by
  intro h
  by_cases hid : id = x
  · exact Or.inl hid
  · rw [containsKey, lookupKey_entryOrSetLogs_ne m id x c logs hid] at h
    exact Or.inr h

theorem keys_entryOrSetLogs_nodup (m : List (String × Container))
    (id : String) (c : Container) (logs : List LogOutput)
    (h : (m.map Prod.fst).Nodup) :
    ((entryOrSetLogs m id c logs).map Prod.fst).Nodup := by
  rw [entryOrSetLogs]
  cases lookupKey m id <;> exact nodup_keys_insertKey _ _ _ h

theorem buildGo_cons_none (lg : Nat → List LogOutput) (e : ListingEntry)
    (es : List ListingEntry) (acc : BuildAcc) (h : requiredFields e = none) :
    buildGo lg (e :: es) acc =
      buildGo lg es { acc with warns := acc.warns + 1 } := by
  rw [buildGo, h]

theorem buildGo_cons_some (lg : Nat → List LogOutput) (e : ListingEntry)
    (es : List ListingEntry) (acc : BuildAcc)
    (f : String × String × String × String × String)
    (h : requiredFields e = some f) :
    buildGo lg (e :: es) acc =
      buildGo lg es
        { acc with
          map := entryOrSetLogs acc.map f.1
            ⟨f.1, f.2.1, f.2.2.1, f.2.2.2.1, f.2.2.2.2, []⟩ (lg acc.fetches)
          fetches := acc.fetches + 1
          events := acc.events ++ [.fetchLogs] } := by
  obtain ⟨id, name, image, cmd, status⟩ := f
  rw [buildGo, h]

theorem buildGo_map_congr (lg : Nat → List LogOutput) :
    ∀ (l : List ListingEntry) (acc acc' : BuildAcc), acc.map = acc'.map →
      acc.fetches = acc'.fetches →
      (buildGo lg l acc).map = (buildGo lg l acc').map := by
  intro l
  induction l with
  | nil => intro acc acc' h1 h2; simpa [buildGo] using h1
  | cons e es ih =>
    intro acc acc' h1 h2
    rw [buildGo, buildGo]
    cases hre : requiredFields e with
    | none => exact ih _ _ h1 h2
    | some f =>
      obtain ⟨id, name, image, cmd, status⟩ := f
      exact ih _ _ (by simp [h1, h2]) (by simp [h2])

theorem buildGo_filter (lg : Nat → List LogOutput) :
    ∀ (l : List ListingEntry) (acc : BuildAcc),
      (buildGo lg l acc).map =
        (buildGo lg (l.filter (fun e => (requiredFields e).isSome)) acc).map := by
  intro l
  induction l with
  | nil => intro acc; rfl
  | cons e es ih =>
    intro acc
    cases hre : requiredFields e with
    | none =>
      rw [buildGo_cons_none lg e es acc hre, List.filter_cons,
        if_neg (by simp [hre])]
      rw [buildGo_map_congr lg es { acc with warns := acc.warns + 1 } acc rfl
        rfl, ih]
    | some f =>
      rw [buildGo_cons_some lg e es acc f hre, List.filter_cons,
        if_pos (by simp [hre]), buildGo_cons_some lg e
          (es.filter (fun e => (requiredFields e).isSome)) acc f hre]
      exact ih _

theorem buildGo_warns (lg : Nat → List LogOutput) :
    ∀ (l : List ListingEntry) (acc : BuildAcc),
      (buildGo lg l acc).warns =
        acc.warns + (l.filter (fun e => (requiredFields e).isNone)).length := by
  intro l
  induction l with
  | nil => intro acc; simp [buildGo]
  | cons e es ih =>
    intro acc
    cases hre : requiredFields e with
    | none =>
      rw [buildGo_cons_none lg e es acc hre, ih, List.filter_cons,
        if_pos (by simp [hre]), List.length_cons]
      dsimp only
      omega
    | some f =>
      rw [buildGo_cons_some lg e es acc f hre, ih, List.filter_cons,
        if_neg (by simp [hre])]

theorem buildGo_keys_sound (lg : Nat → List LogOutput) :
    ∀ (l : List ListingEntry) (acc : BuildAcc) (x : String),
      containsKey (buildGo lg l acc).map x = true →
      containsKey acc.map x = true ∨
        ∃ e ∈ l, ∃ f, requiredFields e = some f ∧ f.1 = x := by
  intro l
  induction l with
  | nil => intro acc x h; exact Or.inl h
  | cons e es ih =>
    intro acc x h
    rw [buildGo] at h
    cases hre : requiredFields e with
    | none =>
      rw [hre] at h
      rcases ih _ _ h with h1 | ⟨e', he', f, hf, hfx⟩
      · exact Or.inl h1
      · exact Or.inr ⟨e', by simp [he'], f, hf, hfx⟩
    | some f =>
      obtain ⟨id, name, image, cmd, status⟩ := f
      rw [hre] at h
      rcases ih _ _ h with h1 | ⟨e', he', f', hf', hfx⟩
      · rcases containsKey_entryOrSetLogs _ _ _ _ _ h1 with rfl | h2
        · exact Or.inr ⟨e, by simp, _, hre, rfl⟩
        · exact Or.inl h2
      · exact Or.inr ⟨e', by simp [he'], f', hf', hfx⟩

theorem buildGo_keys_nodup (lg : Nat → List LogOutput) :
    ∀ (l : List ListingEntry) (acc : BuildAcc),
      (acc.map.map Prod.fst).Nodup →
      ((buildGo lg l acc).map.map Prod.fst).Nodup := by
  intro l
  induction l with
  | nil => intro acc h; exact h
  | cons e es ih =>
    intro acc h
    rw [buildGo]
    cases hre : requiredFields e with
    | none => exact ih _ h
    | some f =>
      obtain ⟨id, name, image, cmd, status⟩ := f
      exact ih _ (keys_entryOrSetLogs_nodup _ _ _ _ h)

/-- Claim C9: a listing entry with a missing required field is skipped with
a warning and leaves the built map exactly as if the entry were absent; the
well-formed entries are still processed, and every key of the built map is
the id of some well-formed entry of the listing. -/
theorem c9 :
    ∀ (lg : Nat → List LogOutput) (l : List ListingEntry),
      buildStoreMap lg l =
        buildStoreMap lg (l.filter (fun e => (requiredFields e).isSome)) ∧
      (buildStore lg l).warns =
        (l.filter (fun e => (requiredFields e).isNone)).length ∧
      ∀ x, containsKey (buildStoreMap lg l) x = true →
        ∃ e ∈ l, ∃ f, requiredFields e = some f ∧ f.1 = x := by
  intro lg l
  refine ⟨buildGo_filter lg l _, ?_, ?_⟩
  · rw [buildStore, buildGo_warns]
    simp
  · intro x h
    rcases buildGo_keys_sound lg l _ x h with h1 | h1
    · simp [containsKey, lookupKey] at h1
    · exact h1

/-- Witness for `c9`: a malformed entry (no name) is dropped, the
well-formed entry of the same listing survives. -/
theorem c9_witness :
    (buildStoreMap (fun _ => []) [⟨some "b", none, some "i", some "c", some "s"⟩,
        ⟨some "b2", some ["n"], some "i", some "c", some "s"⟩] =
      buildStoreMap (fun _ => [])
        (([⟨some "b", none, some "i", some "c", some "s"⟩,
          ⟨some "b2", some ["n"], some "i", some "c", some "s"⟩] :
            List ListingEntry).filter
          (fun e => (requiredFields e).isSome))) ∧
    (buildStore (fun _ => []) [⟨some "b", none, some "i", some "c", some "s"⟩,
        ⟨some "b2", some ["n"], some "i", some "c", some "s"⟩]).warns =
      (([⟨some "b", none, some "i", some "c", some "s"⟩,
        ⟨some "b2", some ["n"], some "i", some "c", some "s"⟩] :
          List ListingEntry).filter
        (fun e => (requiredFields e).isNone)).length ∧
    ∃ e ∈ ([⟨some "b", none, some "i", some "c", some "s"⟩,
        ⟨some "b2", some ["n"], some "i", some "c", some "s"⟩] :
          List ListingEntry),
      ∃ f, requiredFields e = some f ∧ f.1 = "b2" := by
  refine ⟨(c9 (fun _ => []) _).1, (c9 (fun _ => []) _).2.1,
    (c9 (fun _ => []) _).2.2 "b2" ?_⟩
  rfl

/-! ## Duplicate-id handling (claim C10) -/

theorem lastFetchIdx_cons_none (e : ListingEntry) (es : List ListingEntry)
    (k : Nat) (x : String) (h : requiredFields e = none) :
    lastFetchIdx (e :: es) k x = lastFetchIdx es k x := by
  rw [lastFetchIdx, h]

theorem lastFetchIdx_cons_some_inner_some (e : ListingEntry)
    (es : List ListingEntry) (k : Nat) (x : String)
    (f : String × String × String × String × String) (j : Nat)
    (h : requiredFields e = some f) (hin : lastFetchIdx es (k + 1) x = some j) :
    lastFetchIdx (e :: es) k x = some j := by
  rw [lastFetchIdx, h, hin]

theorem lastFetchIdx_cons_some_inner_none (e : ListingEntry)
    (es : List ListingEntry) (k : Nat) (x : String)
    (f : String × String × String × String × String)
    (h : requiredFields e = some f) (hin : lastFetchIdx es (k + 1) x = none) :
    lastFetchIdx (e :: es) k x = if f.1 = x then some k else none := by
  rw [lastFetchIdx, h, hin]

theorem firstFields_cons_none (e : ListingEntry) (es : List ListingEntry)
    (x : String) (h : requiredFields e = none) :
    firstFields (e :: es) x = firstFields es x := by
  rw [firstFields, wfFields, List.filterMap_cons_none h]
  rfl

theorem firstFields_cons_some_eq (e : ListingEntry) (es : List ListingEntry)
    (x : String) (f : String × String × String × String × String)
    (h : requiredFields e = some f) (heq : f.1 = x) :
    firstFields (e :: es) x = some f := by
  rw [firstFields, wfFields, List.filterMap_cons_some h,
    List.find?_cons_of_pos _ (by simp [heq])]

theorem firstFields_cons_some_ne (e : ListingEntry) (es : List ListingEntry)
    (x : String) (f : String × String × String × String × String)
    (h : requiredFields e = some f) (hne : ¬ f.1 = x) :
    firstFields (e :: es) x = firstFields es x := by
  rw [firstFields, wfFields, List.filterMap_cons_some h,
    List.find?_cons_of_neg _ (by simp [hne])]
  rfl

theorem lastFetchIdx_none_iff (l : List ListingEntry) :
    ∀ (k : Nat) (x : String),
      (lastFetchIdx l k x = none ↔ firstFields l x = none) := by
  induction l with
  | nil => intro k x; simp [lastFetchIdx, firstFields, wfFields]
  | cons e es ih =>
    intro k x
    cases hre : requiredFields e with
    | none =>
      rw [lastFetchIdx_cons_none e es k x hre, firstFields_cons_none e es x hre]
      exact ih k x
    | some f =>
      by_cases hfx : f.1 = x
      · rw [firstFields_cons_some_eq e es x f hre hfx]
        cases hin : lastFetchIdx es (k + 1) x with
        | some j =>
          rw [lastFetchIdx_cons_some_inner_some e es k x f j hre hin]
          simp
        | none =>
          rw [lastFetchIdx_cons_some_inner_none e es k x f hre hin, if_pos hfx]
          simp
      · rw [firstFields_cons_some_ne e es x f hre hfx]
        cases hin : lastFetchIdx es (k + 1) x with
        | some j =>
          rw [lastFetchIdx_cons_some_inner_some e es k x f j hre hin]
          constructor
          · intro h; exact absurd h (by simp)
          · intro h
            have hn := (ih (k + 1) x).mpr h
            rw [hn] at hin
            exact Option.noConfusion hin
        | none =>
          rw [lastFetchIdx_cons_some_inner_none e es k x f hre hin, if_neg hfx]
          exact ⟨fun _ => (ih (k + 1) x).mp hin, fun _ => rfl⟩

/-- Characterization of the built map at a key: the first matching
well-formed entry supplies the descriptive fields (or the accumulated
entry's fields, if the key was already present), and the last matching
entry's fetch supplies the logs. -/
theorem buildGo_lookup (lg : Nat → List LogOutput) :
    ∀ (l : List ListingEntry) (m : List (String × Container)) (k w : Nat)
      (ev : List Event) (x : String),
      (lastFetchIdx l k x = none →
        lookupKey (buildGo lg l ⟨m, k, w, ev⟩).map x = lookupKey m x) ∧
      (∀ j, lastFetchIdx l k x = some j →
        (∀ c, lookupKey m x = some c →
          lookupKey (buildGo lg l ⟨m, k, w, ev⟩).map x =
            some { c with logs := lg j }) ∧
        (lookupKey m x = none →
          ∃ f, firstFields l x = some f ∧
            lookupKey (buildGo lg l ⟨m, k, w, ev⟩).map x =
              some (mkContainer f (lg j)))) := by
  intro l
  induction l with
  | nil =>
    intro m k w ev x
    constructor
    · intro _; rfl
    · intro j hj; simp [lastFetchIdx] at hj
  | cons e es ih =>
    intro m k w ev x
    cases hre : requiredFields e with
    | none =>
      rw [buildGo_cons_none lg e es ⟨m, k, w, ev⟩ hre,
        lastFetchIdx_cons_none e es k x hre, firstFields_cons_none e es x hre]
      dsimp only
      exact ih m k (w + 1) ev x
    | some f =>
      rw [buildGo_cons_some lg e es ⟨m, k, w, ev⟩ f hre]
      dsimp only
      cases hin : lastFetchIdx es (k + 1) x with
      | some j0 =>
        rw [lastFetchIdx_cons_some_inner_some e es k x f j0 hre hin]
        obtain ⟨ihs, ihn⟩ := (ih (entryOrSetLogs m f.1
          ⟨f.1, f.2.1, f.2.2.1, f.2.2.2.1, f.2.2.2.2, []⟩ (lg k)) (k + 1) w
          (ev ++ [.fetchLogs]) x).2 j0 hin
        constructor
        · intro hno; exact Option.noConfusion hno
        · intro j hj
          injection hj with hj
          subst hj
          by_cases hfx : f.1 = x
          · subst hfx
            have hlook := lookupKey_entryOrSetLogs_self m f.1
              ⟨f.1, f.2.1, f.2.2.1, f.2.2.2.1, f.2.2.2.2, []⟩ (lg k)
            constructor
            · intro c hc
              refine ihs { c with logs := lg k } ?_
              rw [hlook, hc]
            · intro hno
              refine ⟨f, firstFields_cons_some_eq e es f.1 f hre rfl, ?_⟩
              exact ihs (mkContainer f (lg k)) (by rw [hlook, hno]; rfl)
          · have hne := lookupKey_entryOrSetLogs_ne m f.1 x
              ⟨f.1, f.2.1, f.2.2.1, f.2.2.2.1, f.2.2.2.2, []⟩ (lg k) hfx
            constructor
            · intro c hc
              exact ihs c (by rw [hne]; exact hc)
            · intro hno
              obtain ⟨f', hf', hfin⟩ := ihn (by rw [hne]; exact hno)
              exact ⟨f', by
                rw [firstFields_cons_some_ne e es x f hre hfx]; exact hf',
                hfin⟩
      | none =>
        rw [lastFetchIdx_cons_some_inner_none e es k x f hre hin]
        have hfirst := (ih (entryOrSetLogs m f.1
          ⟨f.1, f.2.1, f.2.2.1, f.2.2.2.1, f.2.2.2.2, []⟩ (lg k)) (k + 1) w
          (ev ++ [.fetchLogs]) x).1 hin
        by_cases hfx : f.1 = x
        · rw [if_pos hfx]
          subst hfx
          have hlook := lookupKey_entryOrSetLogs_self m f.1
            ⟨f.1, f.2.1, f.2.2.1, f.2.2.2.1, f.2.2.2.2, []⟩ (lg k)
          constructor
          · intro hno; exact Option.noConfusion hno
          · intro j hj
            injection hj with hj
            subst hj
            constructor
            · intro c hc
              rw [hfirst, hlook, hc]
            · intro hno
              refine ⟨f, firstFields_cons_some_eq e es f.1 f hre rfl, ?_⟩
              rw [hfirst, hlook, hno]
              rfl
        · rw [if_neg hfx]
          have hne := lookupKey_entryOrSetLogs_ne m f.1 x
            ⟨f.1, f.2.1, f.2.2.1, f.2.2.2.1, f.2.2.2.2, []⟩ (lg k) hfx
          constructor
          · intro _
            rw [hfirst, hne]
          · intro j hj; exact Option.noConfusion hj

/-- Claim C10: when a single listing contains two or more well-formed
entries sharing an id, the built map has exactly one entry for that id; its
descriptive fields come from the first such entry in listing order and its
logs from the log fetch of the last such entry. -/
theorem c10 :
    ∀ (lg : Nat → List LogOutput) (l : List ListingEntry) (x : String),
      2 ≤ ((wfFields l).filter (fun f => f.1 = x)).length →
      lookupKey (buildStoreMap lg l) x =
        (firstFields l x).bind (fun f => (lastFetchIdx l 0 x).map
          (fun j => mkContainer f (lg j))) ∧
      x ∈ (buildStoreMap lg l).map Prod.fst ∧
      ((buildStoreMap lg l).map Prod.fst).Nodup := by
  intro lg l x h2
  have hpos : 0 < ((wfFields l).filter (fun f => f.1 = x)).length := by omega
  obtain ⟨f0, hf0⟩ := List.exists_mem_of_length_pos hpos
  have hf0' := List.mem_filter.mp hf0
  have hfs : firstFields l x ≠ none := by
    rw [firstFields]
    intro hn
    rw [List.find?_eq_none] at hn
    exact absurd hf0'.2 (by simpa using hn f0 hf0'.1)
  obtain ⟨ff, hff⟩ := Option.ne_none_iff_exists'.mp hfs
  have hlf : lastFetchIdx l 0 x ≠ none :=
    fun hn => hfs ((lastFetchIdx_none_iff l 0 x).mp hn)
  obtain ⟨j, hj⟩ := Option.ne_none_iff_exists'.mp hlf
  obtain ⟨ihs, ihn⟩ := (buildGo_lookup lg l [] 0 0 [] x).2 j hj
  obtain ⟨f', hf', hfin⟩ := ihn rfl
  have hfin' : lookupKey (buildStoreMap lg l) x =
      some (mkContainer f' (lg j)) := hfin
  refine ⟨?_, ?_, ?_⟩
  · rw [hf', hj]
    exact hfin'
  · refine (containsKey_iff_mem_keys _ _).mp ?_
    rw [containsKey, hfin']
    rfl
  · exact buildGo_keys_nodup lg l ⟨[], 0, 0, []⟩ (by simp)

/-- Witness for `c10`: two entries with id "d"; the result carries the
first entry's fields and the second fetch's logs. -/
theorem c10_witness :
    lookupKey (buildStoreMap (fun j => [LogOutput.stdOut [j]])
        [⟨some "d", some ["n1"], some "i1", some "c1", some "s1"⟩,
         ⟨some "d", some ["n2"], some "i2", some "c2", some "s2"⟩]) "d" =
      (firstFields
        [⟨some "d", some ["n1"], some "i1", some "c1", some "s1"⟩,
         ⟨some "d", some ["n2"], some "i2", some "c2", some "s2"⟩] "d").bind
        (fun f => (lastFetchIdx
          [⟨some "d", some ["n1"], some "i1", some "c1", some "s1"⟩,
           ⟨some "d", some ["n2"], some "i2", some "c2", some "s2"⟩] 0 "d").map
          (fun j => mkContainer f [LogOutput.stdOut [j]])) ∧
    "d" ∈ (buildStoreMap (fun j => [LogOutput.stdOut [j]])
        [⟨some "d", some ["n1"], some "i1", some "c1", some "s1"⟩,
         ⟨some "d", some ["n2"], some "i2", some "c2", some "s2"⟩]).map
          Prod.fst ∧
    ((buildStoreMap (fun j => [LogOutput.stdOut [j]])
        [⟨some "d", some ["n1"], some "i1", some "c1", some "s1"⟩,
         ⟨some "d", some ["n2"], some "i2", some "c2", some "s2"⟩]).map
          Prod.fst).Nodup :=
  c10 _ _ "d" (by decide)

/-! ## Reconciler removal pass (claim C4) -/

theorem netCall_true (s : RState) (e : Event) (ctx : String) :
    netCall (fun _ => true) s e ctx =
      .ok { s with calls := s.calls + 1, trace := s.trace ++ [e] } := rfl

theorem eraseKey_idem {α : Type} (m : List (String × α)) (k : String) :
    eraseKey (eraseKey m k) k = eraseKey m k := by
  induction m with
  | nil => rfl
  | cons p rest ih =>
    obtain ⟨k', w⟩ := p
    by_cases h : k' = k
    · simp [eraseKey, h, ih]
    · simp [eraseKey, h, ih]

theorem nodup_map_eq_of {α β : Type} (f : α → β) :
    ∀ (l : List α) (a b : α), (l.map f).Nodup → a ∈ l → b ∈ l →
      f a = f b → a = b := by
  intro l
  induction l with
  | nil => intro a b _ ha; simp at ha
  | cons x xs ih =>
    intro a b hnd ha hb hf
    rw [List.map_cons, List.nodup_cons] at hnd
    rcases List.mem_cons.mp ha with rfl | ha'
    · rcases List.mem_cons.mp hb with rfl | hb'
      · rfl
      · exact absurd (by rw [hf]; exact List.mem_map_of_mem f hb') hnd.1
    · rcases List.mem_cons.mp hb with rfl | hb'
      · exact absurd (by rw [← hf]; exact List.mem_map_of_mem f ha') hnd.1
      · exact ih a b hnd.2 ha' hb' hf

theorem deleteLoop_ok (name : String) :
    ∀ (cs : List GuildChannel) (s : RState),
      ∃ s', deleteLoop (fun _ => true) name cs s = .ok s' ∧
        s'.sink.channels = s.sink.channels.filter
          (fun ch => ¬ cs.any (fun c => ch.id = c.id) = true) ∧
        s'.handles =
          (if cs.isEmpty then s.handles else eraseKey s.handles name) := by
  intro cs
  induction cs with
  | nil =>
    intro s
    refine ⟨s, rfl, ?_, rfl⟩
    simp
  | cons c cs ih =>
    intro s
    obtain ⟨s', hrun, hch, hh⟩ := ih
      ⟨eraseKey s.handles name,
        ⟨s.sink.channels.filter (fun ch => ch.id ≠ c.id), s.sink.nextChanId,
          s.sink.nextMsgId⟩,
        s.calls + 1,
        (s.trace ++ [.deleteChannel c.id]) ++ [.handleRemoved name]⟩
    refine ⟨s', ?_, ?_, ?_⟩
    · rw [deleteLoop, netCall_true]
      exact hrun
    · have hch' : s'.sink.channels =
          (s.sink.channels.filter (fun ch => ch.id ≠ c.id)).filter
            (fun ch => ¬ cs.any (fun c => ch.id = c.id) = true) := hch
      rw [hch', List.filter_filter]
      refine List.filter_congr ?_
      intro a _
      simp [List.any_cons, not_or, Bool.and_comm]
    · have hh' : s'.handles =
          (if cs.isEmpty then eraseKey s.handles name
            else eraseKey (eraseKey s.handles name) name) := hh
      rw [hh']
      cases h : cs.isEmpty <;> simp [eraseKey_idem]

theorem processRemoval_true (name : String) (s : RState) :
    processRemoval (fun _ => true) name s =
      deleteLoop (fun _ => true) name
        (s.sink.channels.filter
          (fun c => c.parentId = some CATEGORY ∧ c.name = some name))
        { s with calls := s.calls + 1, trace := s.trace ++ [.listChannels] } := by
  rw [processRemoval, netCall_true]

/-- Claim C4 states that a drained removed id with a known Resource Handle
leads to the deletion of "the channel matching the removed workload by
name" and removal of the handle.  This is false as read: the code compares
each channel's name against the removed *container id*, but channels are
created under the container's display name, so with a handle present and
the channel named after the workload, no deletion happens and the handle
stays. -/
theorem c4_counterexample :
    processRemoval (fun _ => true) "idA"
      ⟨[("idA", (5, some 7))], ⟨[⟨5, some "contA", some CATEGORY⟩], 6, 0⟩, 0,
        []⟩ =
      .ok ⟨[("idA", (5, some 7))], ⟨[⟨5, some "contA", some CATEGORY⟩], 6, 0⟩,
        1, [.listChannels]⟩ ∧
    lookupKey [("idA", ((5 : Nat), some (7 : Nat)))] "idA" = some (5, some 7) ∧
    isDelete .listChannels = false := by
  refine ⟨?_, rfl, rfl⟩
  rfl

/-- Claim C4 amended: for a drained removal entry `name` (a container id),
the Reconciler lists the category's channels and deletes exactly those
whose channel name *equals the drained id*, dropping the id's handle-map
entry iff at least one such channel existed; the presence of a Resource
Handle is never consulted, so a handle whose channel is named otherwise
persists together with its channel. -/
theorem c4_amended :
    ∀ (name : String) (s : RState),
      (s.sink.channels.map GuildChannel.id).Nodup →
      ∃ s', processRemoval (fun _ => true) name s = .ok s' ∧
        s'.sink.channels = s.sink.channels.filter
          (fun c => ¬ (c.parentId = some CATEGORY ∧ c.name = some name)) ∧
        s'.handles = (if (s.sink.channels.any
              (fun c => c.parentId = some CATEGORY ∧ c.name = some name)) =
                true
            then eraseKey s.handles name else s.handles) := by
  intro name s hnd
  obtain ⟨s', hrun, hch, hh⟩ := deleteLoop_ok name
    (s.sink.channels.filter
      (fun c => c.parentId = some CATEGORY ∧ c.name = some name))
    { s with calls := s.calls + 1, trace := s.trace ++ [.listChannels] }
  have hch' : s'.sink.channels = s.sink.channels.filter
      (fun ch => ¬ ((s.sink.channels.filter
        (fun c => c.parentId = some CATEGORY ∧ c.name = some name)).any
          (fun c => ch.id = c.id)) = true) := hch
  have hh' : s'.handles = (if (s.sink.channels.filter
        (fun c => c.parentId = some CATEGORY ∧ c.name = some name)).isEmpty
      then s.handles else eraseKey s.handles name) := hh
  refine ⟨s', by rw [processRemoval_true]; exact hrun, ?_, ?_⟩
  · rw [hch']
    refine List.filter_congr ?_
    intro a ha
    simp only [decide_eq_decide]
    rw [not_iff_not]
    constructor
    · intro h
      simp only [List.any_eq_true, List.mem_filter, decide_eq_true_eq] at h
      obtain ⟨c, ⟨hcmem, hcpred⟩, hcid⟩ := h
      have : a = c := nodup_map_eq_of GuildChannel.id s.sink.channels a c hnd
        ha hcmem hcid
      subst this
      exact hcpred
    · intro h
      simp only [List.any_eq_true, List.mem_filter, decide_eq_true_eq]
      exact ⟨a, ⟨ha, h⟩, rfl⟩
  · rw [hh']
    by_cases hany : (s.sink.channels.any
        (fun c => c.parentId = some CATEGORY ∧ c.name = some name)) = true
    · rw [if_pos hany]
      rw [if_neg ?_]
      simp only [List.any_eq_true, decide_eq_true_eq] at hany
      obtain ⟨c, hcmem, hcpred⟩ := hany
      intro hemp
      rw [List.isEmpty_iff] at hemp
      have hcf : c ∈ (s.sink.channels.filter
          (fun c => c.parentId = some CATEGORY ∧ c.name = some name)) :=
        List.mem_filter.mpr ⟨hcmem, by simp [hcpred]⟩
      rw [hemp] at hcf
      simp at hcf
    · rw [if_neg hany]
      rw [if_pos ?_]
      simp only [List.isEmpty_iff, List.filter_eq_nil_iff]
      intro c hcmem
      exact fun hdec => hany (List.any_eq_true.mpr ⟨c, hcmem, hdec⟩)

/-- Witness for `c4_amended` on a state whose category channel *is* named
by the drained id: the channel is deleted and the handle dropped. -/
theorem c4_amended_witness :
    ∃ s', processRemoval (fun _ => true) "z"
        ⟨[("z", ((3 : Nat), some (9 : Nat)))],
          ⟨[⟨3, some "z", some CATEGORY⟩], 4, 0⟩, 0, []⟩ = .ok s' ∧
      s'.sink.channels = ([⟨3, some "z", some CATEGORY⟩] :
          List GuildChannel).filter
        (fun c => ¬ (c.parentId = some CATEGORY ∧ c.name = some "z")) ∧
      s'.handles = (if (([⟨3, some "z", some CATEGORY⟩] :
            List GuildChannel).any
            (fun c => c.parentId = some CATEGORY ∧ c.name = some "z")) = true
          then eraseKey [("z", ((3 : Nat), some (9 : Nat)))] "z"
          else [("z", ((3 : Nat), some (9 : Nat)))]) :=
  c4_amended "z" _ (by decide)

/-! ## Step equations for the Reconciler cycle -/

theorem resTrace_ok (s : RState) : resTrace (.ok s) = s.trace := rfl

theorem resTrace_err (e : String) (s : RState) :
    resTrace (.error (e, s)) = s.trace := rfl

theorem netCall_ok (oracle : Nat → Bool) (s : RState) (e : Event)
    (ctx : String) (h : oracle s.calls = true) :
    netCall oracle s e ctx =
      .ok { s with calls := s.calls + 1, trace := s.trace ++ [e] } := by
  rw [netCall, if_pos h]

theorem netCall_err (oracle : Nat → Bool) (s : RState) (e : Event)
    (ctx : String) (h : ¬ oracle s.calls = true) :
    netCall oracle s e ctx = .error (ctx, s) := by
  rw [netCall, if_neg h]

theorem deleteLoop_cons_ok (oracle : Nat → Bool) (name : String)
    (c : GuildChannel) (cs : List GuildChannel) (s : RState)
    (h : oracle s.calls = true) :
    deleteLoop oracle name (c :: cs) s =
      deleteLoop oracle name cs
        ⟨eraseKey s.handles name,
          ⟨s.sink.channels.filter (fun ch => ch.id ≠ c.id), s.sink.nextChanId,
            s.sink.nextMsgId⟩,
          s.calls + 1,
          (s.trace ++ [.deleteChannel c.id]) ++ [.handleRemoved name]⟩ := by
  rw [deleteLoop, netCall_ok _ _ _ _ h]

theorem deleteLoop_cons_err (oracle : Nat → Bool) (name : String)
    (c : GuildChannel) (cs : List GuildChannel) (s : RState)
    (h : ¬ oracle s.calls = true) :
    deleteLoop oracle name (c :: cs) s =
      .error ("Failed to delete channel", s) := by
  rw [deleteLoop, netCall_err _ _ _ _ h]

theorem processRemoval_ok (oracle : Nat → Bool) (name : String) (s : RState)
    (h : oracle s.calls = true) :
    processRemoval oracle name s =
      deleteLoop oracle name
        (s.sink.channels.filter
          (fun c => c.parentId = some CATEGORY ∧ c.name = some name))
        { s with calls := s.calls + 1, trace := s.trace ++ [.listChannels] } := by
  rw [processRemoval, netCall_ok _ _ _ _ h]

theorem processRemoval_err (oracle : Nat → Bool) (name : String) (s : RState)
    (h : ¬ oracle s.calls = true) :
    processRemoval oracle name s = .error ("Failed to get guild channels", s) := by
  rw [processRemoval, netCall_err _ _ _ _ h]

theorem processRemovals_cons_ok (oracle : Nat → Bool) (n : String)
    (ns : List String) (s s1 : RState)
    (h : processRemoval oracle n s = .ok s1) :
    processRemovals oracle (n :: ns) s = processRemovals oracle ns s1 := by
  rw [processRemovals, h]

theorem processRemovals_cons_err (oracle : Nat → Bool) (n : String)
    (ns : List String) (s : RState) (e : String × RState)
    (h : processRemoval oracle n s = .error e) :
    processRemovals oracle (n :: ns) s = .error e := by
  rw [processRemovals, h]

theorem upsertSend_panic (oracle : Nat → Bool) (c : Container) (ch : Nat)
    (msg : Option Nat) (s : RState) (h : formatLogs c.logs = none) :
    upsertSend oracle c ch msg s =
      .error ("panicked: byte index is not a char boundary", s) := by
  simp [upsertSend, h]

theorem upsertSend_update_ok (oracle : Nat → Bool) (c : Container) (ch m : Nat)
    (s : RState) (tl : List Char) (hf : formatLogs c.logs = some tl)
    (h : oracle s.calls = true) :
    upsertSend oracle c ch (some m) s =
      .ok ⟨insertKey s.handles c.id (ch, some m), s.sink, s.calls + 1,
        s.trace ++ [.updateMessage ch m]⟩ := by
  simp [upsertSend, hf, netCall, h]

theorem upsertSend_update_err (oracle : Nat → Bool) (c : Container) (ch m : Nat)
    (s : RState) (tl : List Char) (hf : formatLogs c.logs = some tl)
    (h : ¬ oracle s.calls = true) :
    upsertSend oracle c ch (some m) s = .error ("Failed to send message", s) := by
  simp [upsertSend, hf, netCall, h]

theorem upsertSend_create_ok (oracle : Nat → Bool) (c : Container) (ch : Nat)
    (s : RState) (tl : List Char) (hf : formatLogs c.logs = some tl)
    (h : oracle s.calls = true) :
    upsertSend oracle c ch none s =
      .ok ⟨insertKey s.handles c.id (ch, some s.sink.nextMsgId),
        ⟨s.sink.channels, s.sink.nextChanId, s.sink.nextMsgId + 1⟩,
        s.calls + 1,
        (s.trace ++ [.createMessage ch s.sink.nextMsgId]) ++
          [.msgCreated c.id]⟩ := by
  simp [upsertSend, hf, netCall, h]

theorem upsertSend_create_err (oracle : Nat → Bool) (c : Container) (ch : Nat)
    (s : RState) (tl : List Char) (hf : formatLogs c.logs = some tl)
    (h : ¬ oracle s.calls = true) :
    upsertSend oracle c ch none s = .error ("Failed to send message", s) := by
  simp [upsertSend, hf, netCall, h]

theorem upsertContainer_found (oracle : Nat → Bool) (c : Container)
    (s : RState) (ch : Nat) (msg : Option Nat)
    (hl : lookupKey s.handles c.id = some (ch, msg)) :
    upsertContainer oracle c s = upsertSend oracle c ch msg s := by
  rw [upsertContainer, hl]

theorem upsertContainer_new_ok (oracle : Nat → Bool) (c : Container)
    (s : RState) (hl : lookupKey s.handles c.id = none)
    (h : oracle s.calls = true) :
    upsertContainer oracle c s =
      upsertSend oracle c s.sink.nextChanId none
        ⟨insertKey s.handles c.id (s.sink.nextChanId, none),
          ⟨s.sink.channels ++ [⟨s.sink.nextChanId, some c.name, some CATEGORY⟩],
            s.sink.nextChanId + 1, s.sink.nextMsgId⟩,
          s.calls + 1,
          (s.trace ++ [.createChannel c.name s.sink.nextChanId]) ++
            [.handleInserted c.id]⟩ := by
  simp [upsertContainer, hl, netCall, h]

theorem upsertContainer_new_err (oracle : Nat → Bool) (c : Container)
    (s : RState) (hl : lookupKey s.handles c.id = none)
    (h : ¬ oracle s.calls = true) :
    upsertContainer oracle c s = .error ("Failed to create channel", s) := by
  simp [upsertContainer, hl, netCall, h]

theorem upsertLoop_cons_ok (oracle : Nat → Bool) (c : Container)
    (cs : List Container) (s s1 : RState)
    (h : upsertContainer oracle c s = .ok s1) :
    upsertLoop oracle (c :: cs) s = upsertLoop oracle cs s1 := by
  rw [upsertLoop, h]

theorem upsertLoop_cons_err (oracle : Nat → Bool) (c : Container)
    (cs : List Container) (s : RState) (e : String × RState)
    (h : upsertContainer oracle c s = .error e) :
    upsertLoop oracle (c :: cs) s = .error e := by
  rw [upsertLoop, h]

theorem reconCycle_rem_err (oracle : Nat → Bool) (st : Store) (s : RState)
    (e : String × RState)
    (h : processRemovals oracle st.to_remove (addEvt s .lockAcquire) =
      .error e) :
    reconCycle oracle st s = .error e := by
  rw [reconCycle, h]

theorem reconCycle_ups_err (oracle : Nat → Bool) (st : Store) (s s1 : RState)
    (e : String × RState)
    (h1 : processRemovals oracle st.to_remove (addEvt s .lockAcquire) = .ok s1)
    (h2 : upsertLoop oracle (st.containers.map Prod.snd)
      (addEvt (addEvt s1 .lockRelease) .lockAcquire) = .error e) :
    reconCycle oracle st s = .error e := by
  simp only [reconCycle, h1, h2]

theorem reconCycle_all_ok (oracle : Nat → Bool) (st : Store) (s s1 s2 : RState)
    (h1 : processRemovals oracle st.to_remove (addEvt s .lockAcquire) = .ok s1)
    (h2 : upsertLoop oracle (st.containers.map Prod.snd)
      (addEvt (addEvt s1 .lockRelease) .lockAcquire) = .ok s2) :
    reconCycle oracle st s = .ok (addEvt s2 .lockRelease) := by
  simp only [reconCycle, h1, h2]

/-! ## Trace shape of one Reconciler cycle -/

theorem resTrace_err_pair (e : String × RState) :
    resTrace (.error e) = e.2.trace := rfl

theorem all_mp {p q : Event → Bool} (h : ∀ e, p e = true → q e = true) :
    ∀ t : List Event, t.all p = true → t.all q = true := by
  intro t hp
  rw [List.all_eq_true] at hp ⊢
  exact fun x hx => h x (hp x hx)

theorem deleteLoop_trace (oracle : Nat → Bool) (name : String) :
    ∀ (cs : List GuildChannel) (s : RState),
      ∃ t, resTrace (deleteLoop oracle name cs s) = s.trace ++ t ∧
        t.all (fun e => !isLock e && !isCreateOrUpdate e) = true := by
  intro cs
  induction cs with
  | nil =>
    intro s
    exact ⟨[], by simp [deleteLoop, resTrace, resState], rfl⟩
  | cons c cs ih =>
    intro s
    by_cases h : oracle s.calls = true
    · rw [deleteLoop_cons_ok oracle name c cs s h]
      obtain ⟨t, ht, hall⟩ := ih
        ⟨eraseKey s.handles name,
          ⟨s.sink.channels.filter (fun ch => ch.id ≠ c.id), s.sink.nextChanId,
            s.sink.nextMsgId⟩,
          s.calls + 1,
          (s.trace ++ [.deleteChannel c.id]) ++ [.handleRemoved name]⟩
      refine ⟨[.deleteChannel c.id, .handleRemoved name] ++ t, ?_, ?_⟩
      · rw [ht]
        simp
      · simp only [List.all_append, hall, Bool.and_true]
        rfl
    · rw [deleteLoop_cons_err oracle name c cs s h]
      exact ⟨[], by simp [resTrace, resState], rfl⟩

theorem processRemoval_trace (oracle : Nat → Bool) (name : String)
    (s : RState) :
    ∃ t, resTrace (processRemoval oracle name s) = s.trace ++ t ∧
      t.all (fun e => !isLock e && !isCreateOrUpdate e) = true := by
  by_cases h : oracle s.calls = true
  · rw [processRemoval_ok oracle name s h]
    obtain ⟨t, ht, hall⟩ := deleteLoop_trace oracle name
      (s.sink.channels.filter
        (fun c => c.parentId = some CATEGORY ∧ c.name = some name))
      { s with calls := s.calls + 1, trace := s.trace ++ [.listChannels] }
    refine ⟨.listChannels :: t, ?_, ?_⟩
    · rw [ht]
      simp
    · simp only [List.all_cons, hall, Bool.and_true]
      rfl
  · rw [processRemoval_err oracle name s h]
    exact ⟨[], by simp [resTrace, resState], rfl⟩

theorem processRemovals_trace (oracle : Nat → Bool) :
    ∀ (ns : List String) (s : RState),
      ∃ t, resTrace (processRemovals oracle ns s) = s.trace ++ t ∧
        t.all (fun e => !isLock e && !isCreateOrUpdate e) = true := by
  intro ns
  induction ns with
  | nil =>
    intro s
    exact ⟨[], by simp [processRemovals, resTrace, resState], rfl⟩
  | cons n ns ih =>
    intro s
    obtain ⟨t0, ht0, hall0⟩ := processRemoval_trace oracle n s
    cases hpr : processRemoval oracle n s with
    | ok s1 =>
      rw [processRemovals_cons_ok oracle n ns s s1 hpr]
      rw [hpr, resTrace_ok] at ht0
      obtain ⟨t1, ht1, hall1⟩ := ih s1
      refine ⟨t0 ++ t1, ?_, ?_⟩
      · rw [ht1, ht0, List.append_assoc]
      · simp [List.all_append, hall0, hall1]
    | error e =>
      rw [processRemovals_cons_err oracle n ns s e hpr]
      rw [hpr] at ht0
      exact ⟨t0, ht0, hall0⟩

theorem upsertSend_trace (oracle : Nat → Bool) (c : Container) (ch : Nat)
    (msg : Option Nat) (s : RState) :
    ∃ t, resTrace (upsertSend oracle c ch msg s) = s.trace ++ t ∧
      t.all (fun e => !isLock e && !isDelete e) = true := by
  cases hf : formatLogs c.logs with
  | none =>
    rw [upsertSend_panic oracle c ch msg s hf]
    exact ⟨[], by simp [resTrace, resState], rfl⟩
  | some tl =>
    cases msg with
    | some m =>
      by_cases h : oracle s.calls = true
      · rw [upsertSend_update_ok oracle c ch m s tl hf h, resTrace_ok]
        exact ⟨[.updateMessage ch m], rfl, rfl⟩
      · rw [upsertSend_update_err oracle c ch m s tl hf h]
        exact ⟨[], by simp [resTrace, resState], rfl⟩
    | none =>
      by_cases h : oracle s.calls = true
      · rw [upsertSend_create_ok oracle c ch s tl hf h, resTrace_ok]
        refine ⟨[.createMessage ch s.sink.nextMsgId, .msgCreated c.id], ?_, ?_⟩
        · simp
        · rfl
      · rw [upsertSend_create_err oracle c ch s tl hf h]
        exact ⟨[], by simp [resTrace, resState], rfl⟩

theorem upsertContainer_trace (oracle : Nat → Bool) (c : Container)
    (s : RState) :
    ∃ t, resTrace (upsertContainer oracle c s) = s.trace ++ t ∧
      t.all (fun e => !isLock e && !isDelete e) = true := by
  cases hl : lookupKey s.handles c.id with
  | some p =>
    obtain ⟨ch, msg⟩ := p
    rw [upsertContainer_found oracle c s ch msg hl]
    exact upsertSend_trace oracle c ch msg s
  | none =>
    by_cases h : oracle s.calls = true
    · rw [upsertContainer_new_ok oracle c s hl h]
      obtain ⟨t, ht, hall⟩ := upsertSend_trace oracle c s.sink.nextChanId none
        ⟨insertKey s.handles c.id (s.sink.nextChanId, none),
          ⟨s.sink.channels ++ [⟨s.sink.nextChanId, some c.name, some CATEGORY⟩],
            s.sink.nextChanId + 1, s.sink.nextMsgId⟩,
          s.calls + 1,
          (s.trace ++ [.createChannel c.name s.sink.nextChanId]) ++
            [.handleInserted c.id]⟩
      refine ⟨[.createChannel c.name s.sink.nextChanId,
        .handleInserted c.id] ++ t, ?_, ?_⟩
      · rw [ht]
        simp
      · simp only [List.all_append, hall, Bool.and_true]
        rfl
    · rw [upsertContainer_new_err oracle c s hl h]
      exact ⟨[], by simp [resTrace, resState], rfl⟩

theorem upsertLoop_trace (oracle : Nat → Bool) :
    ∀ (cs : List Container) (s : RState),
      ∃ t, resTrace (upsertLoop oracle cs s) = s.trace ++ t ∧
        t.all (fun e => !isLock e && !isDelete e) = true := by
  intro cs
  induction cs with
  | nil =>
    intro s
    exact ⟨[], by simp [upsertLoop, resTrace, resState], rfl⟩
  | cons c cs ih =>
    intro s
    obtain ⟨t0, ht0, hall0⟩ := upsertContainer_trace oracle c s
    cases hpr : upsertContainer oracle c s with
    | ok s1 =>
      rw [upsertLoop_cons_ok oracle c cs s s1 hpr]
      rw [hpr, resTrace_ok] at ht0
      obtain ⟨t1, ht1, hall1⟩ := ih s1
      refine ⟨t0 ++ t1, ?_, ?_⟩
      · rw [ht1, ht0, List.append_assoc]
      · simp [List.all_append, hall0, hall1]
    | error e =>
      rw [upsertLoop_cons_err oracle c cs s e hpr]
      rw [hpr] at ht0
      exact ⟨t0, ht0, hall0⟩

/-! ## Claim C8: deletions precede creates/updates in a cycle -/

theorem delAfterCreate_append_nocreate :
    ∀ (t r : List Event), t.all (fun e => !isCreateOrUpdate e) = true →
      delAfterCreate false (t ++ r) = delAfterCreate false r := by
  intro t
  induction t with
  | nil => intro r _; rfl
  | cons e t' ih =>
    intro r hall
    simp only [List.all_cons, Bool.and_eq_true] at hall
    obtain ⟨he, hall'⟩ := hall
    rw [List.cons_append, delAfterCreate]
    simp only [Bool.and_false, if_false]
    rw [show isCreateOrUpdate e = false from by revert he; cases isCreateOrUpdate e <;> simp]
    simp only [Bool.or_false]
    exact ih r hall'

theorem delAfterCreate_nodelete :
    ∀ (t : List Event) (seen : Bool), t.all (fun e => !isDelete e) = true →
      delAfterCreate seen t = false := by
  intro t
  induction t with
  | nil => intro seen _; rfl
  | cons e t' ih =>
    intro seen hall
    simp only [List.all_cons, Bool.and_eq_true] at hall
    obtain ⟨he, hall'⟩ := hall
    rw [delAfterCreate]
    rw [show isDelete e = false from by revert he; cases isDelete e <;> simp]
    simp only [Bool.false_and, if_false]
    exact ih _ hall'

/-- Claim C8: within every single Reconciler cycle, all channel deletions
of the removal pass are issued strictly before any channel-create,
message-create or message-update call of the update pass, for every oracle
outcome (including aborted cycles): no delete call ever appears after a
create/update call in the cycle's trace. -/
theorem delAfterCreate_nocreate (t : List Event)
    (h : t.all (fun e => !isCreateOrUpdate e) = true) :
    delAfterCreate false t = false := by
  have h2 := delAfterCreate_append_nocreate t [] h
  simpa using h2

theorem c8 :
    ∀ (oracle : Nat → Bool) (st : Store)
      (handles : List (String × (Nat × Option Nat))) (sink : Sink)
      (calls : Nat),
      delAfterCreate false
        (resTrace (reconCycle oracle st ⟨handles, sink, calls, []⟩)) = false := by
  intro oracle st handles sink calls
  obtain ⟨t0, ht0, hall0⟩ := processRemovals_trace oracle st.to_remove
    (addEvt ⟨handles, sink, calls, []⟩ .lockAcquire)
  have hall0nc : t0.all (fun e => !isCreateOrUpdate e) = true :=
    all_mp (fun e he => by
      simp only [Bool.and_eq_true] at he
      exact he.2) t0 hall0
  simp only [addEvt, List.nil_append] at ht0
  cases hrm : processRemovals oracle st.to_remove
      (addEvt ⟨handles, sink, calls, []⟩ .lockAcquire) with
  | error e =>
    rw [reconCycle_rem_err oracle st _ e hrm, resTrace_err_pair]
    simp only [addEvt, List.nil_append] at hrm
    rw [hrm, resTrace_err_pair] at ht0
    rw [ht0, List.singleton_append]
    rw [show delAfterCreate false (Event.lockAcquire :: t0) =
      delAfterCreate false t0 from rfl]
    exact delAfterCreate_nocreate t0 hall0nc
  | ok s1 =>
    have hrm' := hrm
    simp only [addEvt, List.nil_append] at hrm'
    rw [hrm', resTrace_ok] at ht0
    obtain ⟨t1, ht1, hall1⟩ := upsertLoop_trace oracle
      (st.containers.map Prod.snd)
      (addEvt (addEvt s1 .lockRelease) .lockAcquire)
    have hall1nd : t1.all (fun e => !isDelete e) = true :=
      all_mp (fun e he => by
        simp only [Bool.and_eq_true] at he
        exact he.2) t1 hall1
    have htr : (addEvt (addEvt s1 .lockRelease) .lockAcquire).trace =
        Event.lockAcquire :: (t0 ++ ([Event.lockRelease] ++
          [Event.lockAcquire])) := by
      simp [addEvt, ht0]
    cases hup : upsertLoop oracle (st.containers.map Prod.snd)
        (addEvt (addEvt s1 .lockRelease) .lockAcquire) with
    | error e =>
      rw [reconCycle_ups_err oracle st _ s1 e hrm hup, resTrace_err_pair]
      rw [hup, resTrace_err_pair, htr] at ht1
      rw [ht1]
      simp only [List.cons_append, List.append_assoc, List.singleton_append,
        List.nil_append]
      rw [show delAfterCreate false (Event.lockAcquire :: (t0 ++
        (Event.lockRelease :: Event.lockAcquire :: t1))) =
        delAfterCreate false (t0 ++
          (Event.lockRelease :: Event.lockAcquire :: t1)) from rfl]
      rw [delAfterCreate_append_nocreate t0 _ hall0nc]
      rw [show delAfterCreate false (Event.lockRelease ::
        Event.lockAcquire :: t1) = delAfterCreate false t1 from rfl]
      exact delAfterCreate_nodelete t1 false hall1nd
    | ok s2 =>
      rw [reconCycle_all_ok oracle st _ s1 s2 hrm hup, resTrace_ok]
      rw [hup, resTrace_ok, htr] at ht1
      rw [show (addEvt s2 Event.lockRelease).trace =
        s2.trace ++ [Event.lockRelease] from rfl]
      rw [ht1]
      simp only [List.cons_append, List.append_assoc, List.singleton_append,
        List.nil_append]
      rw [show delAfterCreate false (Event.lockAcquire :: (t0 ++
        (Event.lockRelease :: Event.lockAcquire ::
          (t1 ++ [Event.lockRelease])))) =
        delAfterCreate false (t0 ++ (Event.lockRelease ::
          Event.lockAcquire :: (t1 ++ [Event.lockRelease]))) from rfl]
      rw [delAfterCreate_append_nocreate t0 _ hall0nc]
      rw [show delAfterCreate false (Event.lockRelease :: Event.lockAcquire ::
        (t1 ++ [Event.lockRelease])) =
        delAfterCreate false (t1 ++ [Event.lockRelease]) from rfl]
      refine delAfterCreate_nodelete _ false ?_
      simp only [List.all_append, hall1nd, Bool.true_and]
      rfl

/-! ## Claim C6: the lock is held across the Reconciler's network calls -/

theorem anyNetUnlocked_append_nolock :
    ∀ (t : List Event) (d : Nat), 0 < d → t.all (fun e => !isLock e) = true →
      ∀ r, anyNetUnlocked d (t ++ r) = anyNetUnlocked d r := by
  intro t
  induction t with
  | nil => intro d _ _ r; rfl
  | cons e t' ih =>
    intro d hd hall r
    simp only [List.all_cons, Bool.and_eq_true] at hall
    obtain ⟨he, hall'⟩ := hall
    have hd0 : ¬ d = 0 := by omega
    rw [List.cons_append]
    cases e <;> simp_all [anyNetUnlocked, isLock]

theorem anyNetUnlocked_nolock (t : List Event) (d : Nat) (hd : 0 < d)
    (hall : t.all (fun e => !isLock e) = true) :
    anyNetUnlocked d t = false := by
  have h2 := anyNetUnlocked_append_nolock t d hd hall []
  simpa using h2

theorem anyNetLocked_append_nolock_zero :
    ∀ (t : List Event), t.all (fun e => !isLock e) = true →
      ∀ r, anyNetLocked 0 (t ++ r) = anyNetLocked 0 r := by
  intro t
  induction t with
  | nil => intro _ r; rfl
  | cons e t' ih =>
    intro hall r
    simp only [List.all_cons, Bool.and_eq_true] at hall
    obtain ⟨he, hall'⟩ := hall
    rw [List.cons_append]
    cases e <;> simp_all [anyNetLocked, isLock]

theorem buildGo_events (lg : Nat → List LogOutput) :
    ∀ (l : List ListingEntry) (acc : BuildAcc),
      ∃ t, (buildGo lg l acc).events = acc.events ++ t ∧
        t.all (fun e => !isLock e) = true := by
  intro l
  induction l with
  | nil => intro acc; exact ⟨[], by simp [buildGo], rfl⟩
  | cons e es ih =>
    intro acc
    cases hre : requiredFields e with
    | none =>
      rw [buildGo_cons_none lg e es acc hre]
      obtain ⟨t, ht, hall⟩ := ih { acc with warns := acc.warns + 1 }
      exact ⟨t, ht, hall⟩
    | some f =>
      rw [buildGo_cons_some lg e es acc f hre]
      obtain ⟨t, ht, hall⟩ := ih
        { acc with
          map := entryOrSetLogs acc.map f.1
            ⟨f.1, f.2.1, f.2.2.1, f.2.2.2.1, f.2.2.2.2, []⟩ (lg acc.fetches)
          fetches := acc.fetches + 1
          events := acc.events ++ [.fetchLogs] }
      refine ⟨Event.fetchLogs :: t, ?_, ?_⟩
      · rw [ht]
        simp
      · simp only [List.all_cons, hall, Bool.and_true]
        rfl

/-- Claim C6 states that in every iteration of both loops no Workload
Source or Notification Sink call is executed while the Shared Snapshot lock
is held.  This is false for the Reconciler: the guard of
`store.lock().await` in the `for` header lives for the whole loop, so even
a plain cycle that creates one channel and message performs those calls
with the lock held. -/
theorem c6_counterexample :
    anyNetLocked 0 (resTrace (reconCycle (fun _ => true)
      ⟨[("a", ⟨"a", "n", "i", "c", "s", []⟩)], []⟩
      (initRState ⟨[], 0, 0⟩))) = true := by
  rfl

/-- Claim C6 amended: the Poller's lock section contains no network call
(the lock is taken only around the in-memory publish step), but in the
Reconciler *every* network call of a cycle happens while the snapshot lock
is held — the temporaries of the `for` headers keep the guard alive across
both passes. -/
theorem c6_amended :
    (∀ (oracle : Nat → Bool) (st : Store)
      (handles : List (String × (Nat × Option Nat))) (sink : Sink)
      (calls : Nat),
        anyNetUnlocked 0
          (resTrace (reconCycle oracle st ⟨handles, sink, calls, []⟩)) =
          false) ∧
    (∀ (lg : Nat → List LogOutput) (l : List ListingEntry) (st : Store),
        anyNetLocked 0 (pollerIter lg l st).2 = false) := by
  constructor
  · intro oracle st handles sink calls
    obtain ⟨t0, ht0, hall0⟩ := processRemovals_trace oracle st.to_remove
      (addEvt ⟨handles, sink, calls, []⟩ .lockAcquire)
    have hall0nl : t0.all (fun e => !isLock e) = true :=
      all_mp (fun e he => by
        simp only [Bool.and_eq_true] at he
        exact he.1) t0 hall0
    simp only [addEvt, List.nil_append] at ht0
    cases hrm : processRemovals oracle st.to_remove
        (addEvt ⟨handles, sink, calls, []⟩ .lockAcquire) with
    | error e =>
      rw [reconCycle_rem_err oracle st _ e hrm, resTrace_err_pair]
      simp only [addEvt, List.nil_append] at hrm
      rw [hrm, resTrace_err_pair] at ht0
      rw [ht0, List.singleton_append]
      rw [show anyNetUnlocked 0 (Event.lockAcquire :: t0) =
        anyNetUnlocked 1 t0 from rfl]
      exact anyNetUnlocked_nolock t0 1 (by omega) hall0nl
    | ok s1 =>
      have hrm' := hrm
      simp only [addEvt, List.nil_append] at hrm'
      rw [hrm', resTrace_ok] at ht0
      obtain ⟨t1, ht1, hall1⟩ := upsertLoop_trace oracle
        (st.containers.map Prod.snd)
        (addEvt (addEvt s1 .lockRelease) .lockAcquire)
      have hall1nl : t1.all (fun e => !isLock e) = true :=
        all_mp (fun e he => by
          simp only [Bool.and_eq_true] at he
          exact he.1) t1 hall1
      have htr : (addEvt (addEvt s1 .lockRelease) .lockAcquire).trace =
          Event.lockAcquire :: (t0 ++ ([Event.lockRelease] ++
            [Event.lockAcquire])) := by
        simp [addEvt, ht0]
      cases hup : upsertLoop oracle (st.containers.map Prod.snd)
          (addEvt (addEvt s1 .lockRelease) .lockAcquire) with
      | error e =>
        rw [reconCycle_ups_err oracle st _ s1 e hrm hup, resTrace_err_pair]
        rw [hup, resTrace_err_pair, htr] at ht1
        rw [ht1]
        simp only [List.cons_append, List.append_assoc, List.singleton_append,
          List.nil_append]
        rw [show anyNetUnlocked 0 (Event.lockAcquire :: (t0 ++
          Event.lockRelease :: Event.lockAcquire :: t1)) =
          anyNetUnlocked 1 (t0 ++
            Event.lockRelease :: Event.lockAcquire :: t1) from rfl]
        rw [anyNetUnlocked_append_nolock t0 1 (by omega) hall0nl]
        rw [show anyNetUnlocked 1 (Event.lockRelease :: Event.lockAcquire ::
          t1) = anyNetUnlocked 1 t1 from rfl]
        exact anyNetUnlocked_nolock t1 1 (by omega) hall1nl
      | ok s2 =>
        rw [reconCycle_all_ok oracle st _ s1 s2 hrm hup, resTrace_ok]
        rw [hup, resTrace_ok, htr] at ht1
        rw [show (addEvt s2 Event.lockRelease).trace =
          s2.trace ++ [Event.lockRelease] from rfl]
        rw [ht1]
        simp only [List.cons_append, List.append_assoc, List.singleton_append,
          List.nil_append]
        rw [show anyNetUnlocked 0 (Event.lockAcquire :: (t0 ++
          Event.lockRelease :: Event.lockAcquire ::
            (t1 ++ [Event.lockRelease]))) =
          anyNetUnlocked 1 (t0 ++ Event.lockRelease :: Event.lockAcquire ::
            (t1 ++ [Event.lockRelease])) from rfl]
        rw [anyNetUnlocked_append_nolock t0 1 (by omega) hall0nl]
        rw [show anyNetUnlocked 1 (Event.lockRelease :: Event.lockAcquire ::
          (t1 ++ [Event.lockRelease])) =
          anyNetUnlocked 1 (t1 ++ [Event.lockRelease]) from rfl]
        rw [anyNetUnlocked_append_nolock t1 1 (by omega) hall1nl]
        rfl
  · intro lg l st
    obtain ⟨t, ht, hall⟩ := buildGo_events lg l ⟨[], 0, 0, []⟩
    rw [show (pollerIter lg l st).2 =
      Event.listContainers :: ((buildStore lg l).events ++
        [Event.lockAcquire, Event.lockRelease]) from rfl]
    rw [show (buildStore lg l).events =
      (buildGo lg l ⟨[], 0, 0, []⟩).events from rfl]
    rw [ht]
    simp only [List.nil_append]
    rw [show anyNetLocked 0 (Event.listContainers :: (t ++
      [Event.lockAcquire, Event.lockRelease])) =
      anyNetLocked 0 (t ++ [Event.lockAcquire, Event.lockRelease]) from by
        simp [anyNetLocked]]
    rw [anyNetLocked_append_nolock_zero t hall]
    rfl

/-! ## Claim C7: the handle-map invariant -/

theorem resState_ok (s : RState) : resState (.ok s) = s := rfl

theorem resState_err_pair (e : String × RState) :
    resState (.error e) = e.2 := rfl

theorem msgMap_append_one (t : List Event) (e : Event) :
    msgMap (t ++ [e]) = msgMapStep (msgMap t) e := by
  simp [msgMap, List.foldl_append]

theorem projFlags_insertKey (h : List (String × (Nat × Option Nat)))
    (k : String) (v : Nat × Option Nat) :
    projFlags (insertKey h k v) = insertKey (projFlags h) k v.2.isSome :=
  map_insertKey h k v (fun q => q.2.isSome)

theorem projFlags_eraseKey (h : List (String × (Nat × Option Nat)))
    (k : String) :
    projFlags (eraseKey h k) = eraseKey (projFlags h) k :=
  map_eraseKey h k (fun q => q.2.isSome)

theorem lookupKey_projFlags (h : List (String × (Nat × Option Nat)))
    (k : String) :
    lookupKey (projFlags h) k = (lookupKey h k).map (fun q => q.2.isSome) :=
  lookupKey_map h k (fun q => q.2.isSome)

theorem inv_addEvt (s : RState) (e : Event)
    (hneutral : ∀ m, msgMapStep m e = m) (hinv : rstateInv s) :
    rstateInv (addEvt s e) := by
  obtain ⟨h1, h2⟩ := hinv
  refine ⟨h1, ?_⟩
  show projFlags s.handles = msgMap (s.trace ++ [e])
  rw [msgMap_append_one, hneutral, h2]

theorem inv_deleteLoop (oracle : Nat → Bool) (name : String) :
    ∀ (cs : List GuildChannel) (s : RState), rstateInv s →
      rstateInv (resState (deleteLoop oracle name cs s)) := by
  intro cs
  induction cs with
  | nil => intro s hinv; exact hinv
  | cons c cs ih =>
    intro s hinv
    by_cases h : oracle s.calls = true
    · rw [deleteLoop_cons_ok oracle name c cs s h]
      refine ih _ ⟨nodup_keys_eraseKey _ _ hinv.1, ?_⟩
      show projFlags (eraseKey s.handles name) =
        msgMap ((s.trace ++ [.deleteChannel c.id]) ++ [.handleRemoved name])
      rw [msgMap_append_one, msgMap_append_one]
      rw [show ∀ m, msgMapStep m (.deleteChannel c.id) = m from fun _ => rfl]
      rw [show ∀ m, msgMapStep m (.handleRemoved name) = eraseKey m name from
        fun _ => rfl]
      rw [← hinv.2, projFlags_eraseKey]
    · rw [deleteLoop_cons_err oracle name c cs s h]
      exact hinv

theorem inv_processRemoval (oracle : Nat → Bool) (name : String) (s : RState)
    (hinv : rstateInv s) :
    rstateInv (resState (processRemoval oracle name s)) := by
  by_cases h : oracle s.calls = true
  · rw [processRemoval_ok oracle name s h]
    refine inv_deleteLoop oracle name _ _ ⟨hinv.1, ?_⟩
    show projFlags s.handles = msgMap (s.trace ++ [.listChannels])
    rw [msgMap_append_one]
    rw [show ∀ m, msgMapStep m .listChannels = m from fun _ => rfl]
    exact hinv.2
  · rw [processRemoval_err oracle name s h]
    exact hinv

theorem inv_processRemovals (oracle : Nat → Bool) :
    ∀ (ns : List String) (s : RState), rstateInv s →
      rstateInv (resState (processRemovals oracle ns s)) := by
  intro ns
  induction ns with
  | nil => intro s hinv; exact hinv
  | cons n ns ih =>
    intro s hinv
    have hone := inv_processRemoval oracle n s hinv
    cases hpr : processRemoval oracle n s with
    | ok s1 =>
      rw [processRemovals_cons_ok oracle n ns s s1 hpr]
      rw [hpr, resState_ok] at hone
      exact ih s1 hone
    | error e =>
      rw [processRemovals_cons_err oracle n ns s e hpr]
      rw [hpr] at hone
      exact hone

theorem inv_upsertSend (oracle : Nat → Bool) (c : Container) (ch : Nat)
    (msg : Option Nat) (s : RState) (hinv : rstateInv s)
    (hl : lookupKey s.handles c.id = some (ch, msg)) :
    rstateInv (resState (upsertSend oracle c ch msg s)) := by
  cases hf : formatLogs c.logs with
  | none =>
    rw [upsertSend_panic oracle c ch msg s hf]
    exact hinv
  | some tl =>
    cases msg with
    | some m =>
      by_cases h : oracle s.calls = true
      · rw [upsertSend_update_ok oracle c ch m s tl hf h, resState_ok]
        refine ⟨nodup_keys_insertKey _ _ _ hinv.1, ?_⟩
        show projFlags (insertKey s.handles c.id (ch, some m)) =
          msgMap (s.trace ++ [.updateMessage ch m])
        rw [msgMap_append_one]
        rw [show ∀ mm, msgMapStep mm (.updateMessage ch m) = mm from
          fun _ => rfl]
        rw [projFlags_insertKey, ← hinv.2]
        refine insertKey_lookup_self _ _ _ ?_
        rw [lookupKey_projFlags, hl]
        rfl
      · rw [upsertSend_update_err oracle c ch m s tl hf h]
        exact hinv
    | none =>
      by_cases h : oracle s.calls = true
      · rw [upsertSend_create_ok oracle c ch s tl hf h, resState_ok]
        refine ⟨nodup_keys_insertKey _ _ _ hinv.1, ?_⟩
        show projFlags (insertKey s.handles c.id (ch, some s.sink.nextMsgId)) =
          msgMap ((s.trace ++ [.createMessage ch s.sink.nextMsgId]) ++
            [.msgCreated c.id])
        rw [msgMap_append_one, msgMap_append_one]
        rw [show ∀ mm, msgMapStep mm (.createMessage ch s.sink.nextMsgId) = mm
          from fun _ => rfl]
        rw [show ∀ mm, msgMapStep mm (.msgCreated c.id) =
          insertKey mm c.id true from fun _ => rfl]
        rw [projFlags_insertKey, ← hinv.2]
        rfl
      · rw [upsertSend_create_err oracle c ch s tl hf h]
        exact hinv

theorem inv_upsertContainer (oracle : Nat → Bool) (c : Container) (s : RState)
    (hinv : rstateInv s) :
    rstateInv (resState (upsertContainer oracle c s)) := by
  cases hl : lookupKey s.handles c.id with
  | some p =>
    obtain ⟨ch, msg⟩ := p
    rw [upsertContainer_found oracle c s ch msg hl]
    exact inv_upsertSend oracle c ch msg s hinv hl
  | none =>
    by_cases h : oracle s.calls = true
    · rw [upsertContainer_new_ok oracle c s hl h]
      have hinv2 : rstateInv
          ⟨insertKey s.handles c.id (s.sink.nextChanId, none),
            ⟨s.sink.channels ++
              [⟨s.sink.nextChanId, some c.name, some CATEGORY⟩],
              s.sink.nextChanId + 1, s.sink.nextMsgId⟩,
            s.calls + 1,
            (s.trace ++ [.createChannel c.name s.sink.nextChanId]) ++
              [.handleInserted c.id]⟩ := by
        refine ⟨nodup_keys_insertKey _ _ _ hinv.1, ?_⟩
        show projFlags (insertKey s.handles c.id (s.sink.nextChanId, none)) =
          msgMap ((s.trace ++ [.createChannel c.name s.sink.nextChanId]) ++
            [.handleInserted c.id])
        rw [msgMap_append_one, msgMap_append_one]
        rw [show ∀ mm, msgMapStep mm
          (.createChannel c.name s.sink.nextChanId) = mm from fun _ => rfl]
        rw [show ∀ mm, msgMapStep mm (.handleInserted c.id) =
          insertKey mm c.id false from fun _ => rfl]
        rw [projFlags_insertKey, ← hinv.2]
        rfl
      refine inv_upsertSend oracle c s.sink.nextChanId none _ hinv2 ?_
      show lookupKey (insertKey s.handles c.id (s.sink.nextChanId, none))
        c.id = some (s.sink.nextChanId, none)
      rw [lookupKey_insertKey, if_pos rfl]
    · rw [upsertContainer_new_err oracle c s hl h]
      exact hinv

theorem inv_upsertLoop (oracle : Nat → Bool) :
    ∀ (cs : List Container) (s : RState), rstateInv s →
      rstateInv (resState (upsertLoop oracle cs s)) := by
  intro cs
  induction cs with
  | nil => intro s hinv; exact hinv
  | cons c cs ih =>
    intro s hinv
    have hone := inv_upsertContainer oracle c s hinv
    cases hpr : upsertContainer oracle c s with
    | ok s1 =>
      rw [upsertLoop_cons_ok oracle c cs s s1 hpr]
      rw [hpr, resState_ok] at hone
      exact ih s1 hone
    | error e =>
      rw [upsertLoop_cons_err oracle c cs s e hpr]
      rw [hpr] at hone
      exact hone

theorem inv_reconCycle (oracle : Nat → Bool) (st : Store) (s : RState)
    (hinv : rstateInv s) : rstateInv (resState (reconCycle oracle st s)) := by
  have h0 : rstateInv (addEvt s .lockAcquire) :=
    inv_addEvt s .lockAcquire (fun _ => rfl) hinv
  have hrem := inv_processRemovals oracle st.to_remove _ h0
  cases hrm : processRemovals oracle st.to_remove (addEvt s .lockAcquire) with
  | error e =>
    rw [reconCycle_rem_err oracle st _ e hrm]
    rw [hrm] at hrem
    exact hrem
  | ok s1 =>
    rw [hrm, resState_ok] at hrem
    have h1 : rstateInv (addEvt (addEvt s1 .lockRelease) .lockAcquire) :=
      inv_addEvt _ .lockAcquire (fun _ => rfl)
        (inv_addEvt _ .lockRelease (fun _ => rfl) hrem)
    have hups := inv_upsertLoop oracle (st.containers.map Prod.snd) _ h1
    cases hup : upsertLoop oracle (st.containers.map Prod.snd)
        (addEvt (addEvt s1 .lockRelease) .lockAcquire) with
    | error e =>
      rw [reconCycle_ups_err oracle st _ s1 e hrm hup]
      rw [hup] at hups
      exact hups
    | ok s2 =>
      rw [reconCycle_all_ok oracle st _ s1 s2 hrm hup, resState_ok]
      rw [hup, resState_ok] at hups
      exact inv_addEvt s2 .lockRelease (fun _ => rfl) hups

theorem runCycles_cons_ok (oracle : Nat → Bool) (st : Store)
    (rest : List Store) (s s1 : RState)
    (h : reconCycle oracle st s = .ok s1) :
    runCycles oracle (st :: rest) s = runCycles oracle rest s1 := by
  rw [runCycles, h]

theorem runCycles_cons_err (oracle : Nat → Bool) (st : Store)
    (rest : List Store) (s s1 : RState) (estr : String)
    (h : reconCycle oracle st s = .error (estr, s1)) :
    runCycles oracle (st :: rest) s = s1 := by
  rw [runCycles, h]

theorem inv_runCycles (oracle : Nat → Bool) :
    ∀ (inputs : List Store) (s : RState), rstateInv s →
      rstateInv (runCycles oracle inputs s) := by
  intro inputs
  induction inputs with
  | nil => intro s hinv; exact hinv
  | cons st rest ih =>
    intro s hinv
    have hone := inv_reconCycle oracle st s hinv
    cases hrc : reconCycle oracle st s with
    | ok s1 =>
      rw [runCycles_cons_ok oracle st rest s s1 hrc]
      rw [hrc, resState_ok] at hone
      exact ih s1 hone
    | error e =>
      obtain ⟨estr, s1⟩ := e
      rw [runCycles_cons_err oracle st rest s s1 estr hrc]
      rw [hrc] at hone
      exact hone

/-- Claim C7: starting from an empty Resource Handle map, after any
sequence of reconciliation cycles (under any oracle outcome, aborted cycles
included) the handle map never holds two handles for the same workload id,
and a handle's message field is `some` exactly when the trace records a
successful initial message create for that workload since the handle was
(re)created. -/
theorem c7 :
    ∀ (oracle : Nat → Bool) (inputs : List Store) (sink : Sink),
      (((runCycles oracle inputs (initRState sink)).handles.map
        Prod.fst).Nodup) ∧
      ∀ (id : String) (h : Nat × Option Nat),
        lookupKey (runCycles oracle inputs (initRState sink)).handles id =
          some h →
        msgLookup (runCycles oracle inputs (initRState sink)).trace id =
          some h.2.isSome := by
  intro oracle inputs sink
  have hinv : rstateInv (runCycles oracle inputs (initRState sink)) :=
    inv_runCycles oracle inputs (initRState sink) ⟨by simp [initRState], rfl⟩
  refine ⟨hinv.1, ?_⟩
  intro id h hl
  rw [msgLookup, ← hinv.2]
  rw [lookupKey_projFlags, hl]
  rfl

/-- Witness for `c7`: one successful cycle over one container creates a
channel and an initial message; the handle map holds one entry whose
message field is `some`, matching the recorded message create. -/
theorem c7_witness :
    (((runCycles (fun _ => true)
      [⟨[("a", ⟨"a", "n", "i", "c", "s", []⟩)], []⟩]
      (initRState ⟨[], 0, 0⟩)).handles.map Prod.fst).Nodup) ∧
    msgLookup (runCycles (fun _ => true)
      [⟨[("a", ⟨"a", "n", "i", "c", "s", []⟩)], []⟩]
      (initRState ⟨[], 0, 0⟩)).trace "a" =
      some (((0 : Nat), some (0 : Nat)).2.isSome) :=
  ⟨(c7 (fun _ => true) [⟨[("a", ⟨"a", "n", "i", "c", "s", []⟩)], []⟩]
      ⟨[], 0, 0⟩).1,
   (c7 (fun _ => true) [⟨[("a", ⟨"a", "n", "i", "c", "s", []⟩)], []⟩]
      ⟨[], 0, 0⟩).2 "a" (0, some 0) (by rfl)⟩

end DockerStatus
